import Mathlib

/-!
# monica-proxy: the SSE translator of `internal/monica/sse.go`

A shallow embedding of `StreamMonicaSSEToClient` and `HandleNonStreamingResponse`.

* Raw stream bytes, lines and JSON payloads are `List Char`; decoded text fields are `String`.
* `bufio.Reader.ReadString` is `ReadString`; the two `for` loops are fuel-free structural
  recursions over the newline-terminated lines that `ReadString` returns in turn
  (`splitLines`), followed by the last call, which returns the unterminated rest together
  with the reader's error.
* `sonic.UnmarshalString` (an external library) is a parameter of the embedding: a function
  from the payload and the object decoded into, to the object as the call leaves it and
  whether the call reported an error.
* `sseDataPool` is an explicit stack of objects: `Get` pops the object most recently `Put`,
  or makes a zero-valued one when the pool is empty.
* `utils.RandStringUsingMathRand` and `time.Now` are read once per call; their values
  are parameters.
* The buffered writer records the frames it accepted; the destination decides which
  `WriteString` calls report an error.
-/

namespace Monica

/-! ## Constants -/

def sseObject : String := "chat.completion.chunk"

def sseFinish : String := "[DONE]"

/-- The line prefix `"data: "` tested by `strings.HasPrefix` and removed by
`strings.TrimPrefix`. -/
def dataPrefix : List Char := "data: ".toList

/-- Value of `openai.ChatMessageRoleAssistant`. -/
def ChatMessageRoleAssistant : String := "assistant"

/-- Value of `openai.FinishReasonStop`. -/
def FinishReasonStop : String := "stop"

/-- Value of `openai.FinishReasonNull`. -/
def FinishReasonNull : String := "null"

/-! ## Data model -/

/-- The anonymous struct `AgentStatus.Metadata`. -/
structure Metadata where
  Title : String
  ReasoningDetail : String
deriving DecidableEq

structure AgentStatus where
  UID : String
  /-- The field `Type` (a reserved word here). -/
  Type_ : String
  Text : String
  Metadata : Metadata
deriving DecidableEq

structure SSEData where
  Text : String
  Finished : Bool
  AgentStatus : AgentStatus
deriving DecidableEq

/-- The value `&SSEData{}` made by `sseDataPool.New` and by `var sseObj SSEData`. -/
def SSEData.zero : SSEData :=
  { Text := "", Finished := false,
    AgentStatus := { UID := "", Type_ := "", Text := "",
                     Metadata := { Title := "", ReasoningDetail := "" } } }

/-- The fields of `openai.ChatCompletionStreamChoiceDelta` that sse.go sets. -/
structure ChatCompletionStreamChoiceDelta where
  Role : String
  Content : String
deriving DecidableEq

/-- Modelled from the spec: `types.ChatCompletionStreamChoice` is declared in
`internal/types`, which is not among the sources; the fields are those of the struct
literals in sse.go and of the wire shape in section 6 of the spec. -/
structure ChatCompletionStreamChoice where
  Index : Int
  Delta : ChatCompletionStreamChoiceDelta
  FinishReason : String
deriving DecidableEq

/-- Modelled from the spec: `types.ChatCompletionStreamResponse` is declared in
`internal/types`, which is not among the sources; the fields are those of the struct
literals in sse.go and of the wire shape in section 6 of the spec. A field that a
literal leaves out has its zero value. -/
structure ChatCompletionStreamResponse where
  ID : String
  Object : String
  Created : Int
  Model : String
  Choices : List ChatCompletionStreamChoice
  SystemFingerprint : String
deriving DecidableEq

/-- Modelled from the spec: `types.ChatCompletionMessage` (package `internal/types`, not
among the sources), with the fields set in sse.go. -/
structure ChatCompletionMessage where
  Role : String
  Content : String
deriving DecidableEq

/-- Modelled from the spec: `types.ChatCompletionChoice` (package `internal/types`, not
among the sources), with the fields set in sse.go. -/
structure ChatCompletionChoice where
  Index : Int
  Message : ChatCompletionMessage
  FinishReason : String
deriving DecidableEq

/-- Modelled from the spec: `types.ChatCompletionUsage` (package `internal/types`, not
among the sources), with the fields set in sse.go. -/
structure ChatCompletionUsage where
  PromptTokens : Int
  CompletionTokens : Int
  TotalTokens : Int
deriving DecidableEq

/-- Modelled from the spec: `types.ChatCompletionResponse` (package `internal/types`, not
among the sources), with the fields set in sse.go. -/
structure ChatCompletionResponse where
  ID : String
  Object : String
  Created : Int
  Model : String
  SystemFingerprint : String
  Choices : List ChatCompletionChoice
  Usage : ChatCompletionUsage
deriving DecidableEq

/-! ## The environment of a call -/

/-- What `sonic.UnmarshalString(jsonStr, sseObj)` leaves behind: the object after the
call and whether the returned error is non-nil. -/
structure UnmarshalResult where
  obj : SSEData
  failed : Bool
deriving DecidableEq

/-- The type of `sonic.UnmarshalString`, specialised to `*SSEData`. -/
abbrev Unmarshal := List Char → SSEData → UnmarshalResult

/-- The values a call reads from its environment: the JSON decoder, the two random
tokens and the clock. -/
structure Env where
  unmarshal : Unmarshal
  chatId : String
  now : Int
  fingerprint : String

/-- The error with which an `io.Reader` ends: `io.EOF` or another error. -/
inductive ReadErr where
  | EOF
  | other (cause : String)
deriving DecidableEq

/-- An `io.Reader`: the bytes it delivers, then the error it reports. -/
structure Reader where
  data : List Char
  err : ReadErr
deriving DecidableEq

/-- The destination behind `bufio.NewWriterSize(w, bufferSize)`: `w k` is the error, if
any, that the buffered writer reports on the `k`-th `WriteString` call of the session. -/
abbrev Writer := Nat → Option String

/-- A destination on which no write fails. -/
def Writer.healthy : Writer := fun _ => none

/-- The errors the two drivers return: `fmt.Errorf("read error: %w", err)` and
`fmt.Errorf("write error: %w", err)`. -/
inductive Error where
  | readError (cause : String)
  | writeError (cause : String)
deriving DecidableEq

/-- One `WriteString` call on the buffered writer: `chunk msg` is the string
`"data: " + MarshalString(msg) + "\n\n"`, `done` is `fmt.Sprintf("data: %s\n\n", sseFinish)`. -/
inductive Frame where
  | chunk (msg : ChatCompletionStreamResponse)
  | done
deriving DecidableEq

/-- The bytes of a frame, for a JSON encoder `marshal` (`sonic.MarshalString`). -/
def Frame.wire (marshal : ChatCompletionStreamResponse → String) : Frame → String
  | .chunk msg => "data: " ++ marshal msg ++ "\n\n"
  | .done => "data: " ++ sseFinish ++ "\n\n"

/-! ## Line reading -/

/-- Scan for the first `'\n'`: the bytes up to and including it and the bytes after it,
or all bytes and `none` when there is no newline. -/
def readUntilNewline : List Char → List Char × Option (List Char)
  | [] => ([], none)
  | c :: cs =>
    if c = '\n' then ([c], some cs)
    else ((readUntilNewline cs).1.cons c, (readUntilNewline cs).2)

/-- The call `reader.ReadString('\n')`: the line read, the error, and the reader after
the call. Without a newline in the remaining bytes the call returns them all together
with the reader's error. -/
def ReadString (r : Reader) : List Char × Option ReadErr × Reader :=
  match readUntilNewline r.data with
  | (line, some rest) => (line, none, { r with data := rest })
  | (line, none) => (line, some r.err, { r with data := [] })

/-- The lines that successive `ReadString` calls return without error, and the
unterminated rest that the last call returns together with the reader's error. -/
def splitLines : List Char → List (List Char) × List Char
  | [] => ([], [])
  | c :: cs =>
    if c = '\n' then ([c] :: (splitLines cs).1, (splitLines cs).2)
    else
      match (splitLines cs).1 with
      | [] => ([], c :: (splitLines cs).2)
      | l :: ls => ((c :: l) :: ls, (splitLines cs).2)

/-- The function `strings.HasPrefix`. -/
def HasPrefix (s pre : List Char) : Bool := pre.isPrefixOf s

/-- The function `strings.TrimPrefix`. -/
def TrimPrefix (s pre : List Char) : List Char :=
  if HasPrefix s pre then s.drop pre.length else s

/-! ## The object pool -/

/-- The call `sseDataPool.Get()`: the object most recently put back, or a new
zero-valued one. -/
def poolGet : List SSEData → SSEData × List SSEData
  | [] => (SSEData.zero, [])
  | o :: rest => (o, rest)

/-- The call `sseDataPool.Put(sseObj)`. -/
def poolPut (o : SSEData) (pool : List SSEData) : List SSEData := o :: pool

/-! ## StreamMonicaSSEToClient -/

/-- The local state of the `for` loop of `StreamMonicaSSEToClient`: the variable
`thinkFlag`, the content of `sseDataPool`, the frames the buffered writer has accepted
and the number of `WriteString` calls made. -/
structure LoopState where
  thinkFlag : Bool
  pool : List SSEData
  written : List Frame
  calls : Nat
deriving DecidableEq

/-- How one pass through the loop body ends: with `continue` (or by reaching the end of
the body), or with `return`. -/
inductive Outcome where
  | next (s : LoopState)
  | ret (s : LoopState) (err : Option Error)
deriving DecidableEq

/-- The `switch` of the loop body: the message built from the decoded object, the object
after the switch (the default case rewrites `sseObj.Text`) and the new `thinkFlag`. -/
def buildMsg (env : Env) (model : String) (thinkFlag : Bool) (sseObj : SSEData) :
    ChatCompletionStreamResponse × SSEData × Bool :=
  if sseObj.Finished then
    ({ ID := "chatcmpl-" ++ env.chatId, Object := sseObject, Created := env.now,
       Model := model,
       Choices := [{ Index := 0,
                     Delta := { Role := ChatMessageRoleAssistant, Content := "" },
                     FinishReason := FinishReasonStop }],
       SystemFingerprint := "" }, sseObj, thinkFlag)
  else if sseObj.AgentStatus.Type_ = "thinking" then
    ({ ID := "chatcmpl-" ++ env.chatId, Object := sseObject,
       SystemFingerprint := env.fingerprint, Created := env.now, Model := model,
       Choices := [{ Index := 0,
                     Delta := { Role := ChatMessageRoleAssistant, Content := "<think>" },
                     FinishReason := FinishReasonNull }] }, sseObj, true)
  else if sseObj.AgentStatus.Type_ = "thinking_detail_stream" then
    ({ ID := "chatcmpl-" ++ env.chatId, Object := sseObject,
       SystemFingerprint := env.fingerprint, Created := env.now, Model := model,
       Choices := [{ Index := 0,
                     Delta := { Role := ChatMessageRoleAssistant,
                                Content := sseObj.AgentStatus.Metadata.ReasoningDetail },
                     FinishReason := FinishReasonNull }] }, sseObj, thinkFlag)
  else
    let sseObj1 : SSEData :=
      if thinkFlag then { sseObj with Text := "</think>" ++ sseObj.Text } else sseObj
    ({ ID := "chatcmpl-" ++ env.chatId, Object := sseObject,
       SystemFingerprint := env.fingerprint, Created := env.now, Model := model,
       Choices := [{ Index := 0,
                     Delta := { Role := ChatMessageRoleAssistant, Content := sseObj1.Text },
                     FinishReason := FinishReasonNull }] }, sseObj1, false)

/-- The statements `sseObj.AgentStatus.Type = ""; sseObj.Finished = false` that precede
the `Put` at the end of the loop body. -/
def resetForPool (sseObj : SSEData) : SSEData :=
  { sseObj with AgentStatus := { sseObj.AgentStatus with Type_ := "" }, Finished := false }

/-- The body of the `for` loop of `StreamMonicaSSEToClient` for a line that `ReadString`
returned without error. -/
def iteration (env : Env) (model : String) (w : Writer) (s : LoopState)
    (line : List Char) : Outcome :=
  if !HasPrefix line dataPrefix then .next s
  else
    let jsonStr := TrimPrefix line dataPrefix
    if jsonStr = [] then .next s
    else
      let got := poolGet s.pool
      let res := env.unmarshal jsonStr got.1
      if res.failed then .next { s with pool := poolPut res.obj got.2 }
      else
        let built := buildMsg env model s.thinkFlag res.obj
        let sseMsg := built.1
        let sseObj := built.2.1
        match w s.calls with
        | some cause =>
          .ret { s with thinkFlag := built.2.2, pool := got.2, calls := s.calls + 1 }
            (some (.writeError cause))
        | none =>
          let written := s.written ++ [Frame.chunk sseMsg]
          if sseObj.Finished then
            -- the error of the sentinel's WriteString is not looked at
            .ret { thinkFlag := built.2.2, pool := got.2,
                   written := match w (s.calls + 1) with
                     | none => written ++ [Frame.done]
                     | some _ => written,
                   calls := s.calls + 2 } none
          else
            .next { thinkFlag := built.2.2, pool := poolPut (resetForPool sseObj) got.2,
                    written := written, calls := s.calls + 1 }

/-- The loop of `StreamMonicaSSEToClient` over the lines read without error. -/
def runLines (env : Env) (model : String) (w : Writer) :
    LoopState → List (List Char) → Outcome
  | s, [] => .next s
  | s, line :: rest =>
    match iteration env model w s line with
    | .next s1 => runLines env model w s1 rest
    | .ret s1 err => .ret s1 err

/-- The state in which `StreamMonicaSSEToClient` enters its loop: `var thinkFlag bool`,
the pool as the call finds it, and a writer that has accepted nothing yet. -/
def initialState (pool : List SSEData) : LoopState :=
  { thinkFlag := false, pool := pool, written := [], calls := 0 }

/-- What a call of `StreamMonicaSSEToClient` leaves behind: the returned error, the frames
the buffered writer accepted, in order, the final value of `thinkFlag` and the pool. -/
structure StreamResult where
  err : Option Error
  written : List Frame
  thinkFlag : Bool
  pool : List SSEData
deriving DecidableEq

/-- The function `StreamMonicaSSEToClient(model, w, r)`, run with the environment `env`
and with `pool` as the content of `sseDataPool` when the call starts. -/
def StreamMonicaSSEToClient (env : Env) (pool : List SSEData) (model : String)
    (w : Writer) (r : Reader) : StreamResult :=
  match runLines env model w (initialState pool) (splitLines r.data).1 with
  | .ret s err =>
    { err := err, written := s.written, thinkFlag := s.thinkFlag, pool := s.pool }
  | .next s =>
    match r.err with
    | .EOF => { err := none, written := s.written, thinkFlag := s.thinkFlag, pool := s.pool }
    | .other cause =>
      { err := some (.readError cause), written := s.written, thinkFlag := s.thinkFlag,
        pool := s.pool }

/-! ## HandleNonStreamingResponse -/

/-- The body of the `for` loop of `HandleNonStreamingResponse` for a line read without
error: the content builder after the pass, and whether the pass ends with `break`. -/
def aggregateLine (env : Env) (content : String) (line : List Char) : String × Bool :=
  if !HasPrefix line dataPrefix then (content, false)
  else
    let jsonStr := TrimPrefix line dataPrefix
    if jsonStr = [] then (content, false)
    else
      let res := env.unmarshal jsonStr SSEData.zero
      if res.failed then (content, false)
      else (content ++ res.obj.Text, res.obj.Finished)

/-- The loop of `HandleNonStreamingResponse` over the lines read without error: the
content builder when the loop is left, and whether it was left with `break` on a
finished event. -/
def aggregateLines (env : Env) : String → List (List Char) → String × Bool
  | content, [] => (content, false)
  | content, line :: rest =>
    match aggregateLine env content line with
    | (content1, true) => (content1, true)
    | (content1, false) => aggregateLines env content1 rest

set_option linter.unusedVariables false in
/-- The function `HandleNonStreamingResponse(model, r)`: the response pointer (`none` for
`nil`) and the error. -/
def HandleNonStreamingResponse (env : Env) (model : String) (r : Reader) :
    Option ChatCompletionResponse × Option Error :=
  let str1 : String := "hello"
  let looped := aggregateLines env "" (splitLines r.data).1
  match looped.2, r.err with
  | false, .other cause => (none, some (.readError cause))
  | _, _ =>
    (some { ID := "chatcmpl-" ++ env.chatId, Object := "chat.completion",
            Created := env.now, Model := str1, SystemFingerprint := str1,
            Choices := [{ Index := 0,
                          Message := { Role := "assistant", Content := looped.1 },
                          FinishReason := "stop" }],
            Usage := { PromptTokens := 0, CompletionTokens := 0, TotalTokens := 0 } },
     none)

/-! ## Vocabulary of the statements -/

/-- A newline-terminated data line with payload `payload`: the bytes
`"data: " ++ payload ++ "\n"`. -/
def dataLine (payload : List Char) : List Char := dataPrefix ++ payload ++ ['\n']

/-- The non-terminal chunk of a session with content `content`: role assistant, finish
reason null, the session's id, timestamp and fingerprint and the caller's model. -/
def contentChunk (env : Env) (model : String) (content : String) :
    ChatCompletionStreamResponse :=
  { ID := "chatcmpl-" ++ env.chatId, Object := "chat.completion.chunk",
    Created := env.now, Model := model,
    Choices := [{ Index := 0, Delta := { Role := "assistant", Content := content },
                  FinishReason := "null" }],
    SystemFingerprint := env.fingerprint }

/-- The terminal chunk of a session as the finished case builds it: role assistant, empty
content, finish reason stop, and no system fingerprint. -/
def terminalChunk (env : Env) (model : String) : ChatCompletionStreamResponse :=
  { ID := "chatcmpl-" ++ env.chatId, Object := "chat.completion.chunk",
    Created := env.now, Model := model,
    Choices := [{ Index := 0, Delta := { Role := "assistant", Content := "" },
                  FinishReason := "stop" }],
    SystemFingerprint := "" }

/-- A terminal chunk: a chunk frame with a choice whose finish reason is stop. -/
def Frame.isTerminal : Frame → Bool
  | .chunk msg => msg.Choices.any (fun c => c.FinishReason = FinishReasonStop)
  | .done => false

/-- The content a frame carries: the contents of a chunk's deltas; the sentinel carries
none. -/
def Frame.content : Frame → String
  | .chunk msg => String.join (msg.Choices.map (fun c => c.Delta.Content))
  | .done => ""

/-- An object as the end of the loop body returns it to the pool: not finished and with
an empty agent status type. -/
def Clean (o : SSEData) : Prop := o.Finished = false ∧ o.AgentStatus.Type_ = ""

/-- Every object in the pool is clean. -/
def CleanPool (pool : List SSEData) : Prop := ∀ o ∈ pool, Clean o

/-- The payload `payload`, followed by the newline that `ReadString` leaves on the line,
decodes without error into every clean object, and the decoded object satisfies `P`. -/
def DecodesTo (env : Env) (payload : List Char) (P : SSEData → Prop) : Prop :=
  ∀ o, Clean o →
    (env.unmarshal (payload ++ ['\n']) o).failed = false ∧
      P (env.unmarshal (payload ++ ['\n']) o).obj

/-- A decoder given by a finite table: a listed payload performs its field assignments on
the object decoded into and reports its status; any other payload is rejected and leaves
the object as it was. It instantiates the decoder parameter at concrete streams. -/
def scriptedUnmarshal (table : List (List Char × (SSEData → UnmarshalResult))) : Unmarshal :=
  fun jsonStr obj =>
    match table.lookup jsonStr with
    | some f => f obj
    | none => { obj := obj, failed := true }


/-- A line as `ReadString` returns it without error: bytes free of newlines, then the
newline. -/
def IsLine (l : List Char) : Prop := ∃ body, '\n' ∉ body ∧ l = body ++ ['\n']

/-- The payload `payload`, followed by the newline of its line, decodes without error
into a zero-valued object, and the decoded object satisfies `P`. -/
def DecodesFresh (env : Env) (payload : List Char) (P : SSEData → Prop) : Prop :=
  (env.unmarshal (payload ++ ['\n']) SSEData.zero).failed = false ∧
    P (env.unmarshal (payload ++ ['\n']) SSEData.zero).obj

/-- The event of a line, in the words of the decoder's contract: a line that begins with
`"data: "` and whose remainder decodes without error into a zero-valued object yields the
decoded object; any other line yields nothing. -/
def decodedEvent (env : Env) (line : List Char) : Option SSEData :=
  if HasPrefix line dataPrefix then
    if (env.unmarshal (line.drop dataPrefix.length) SSEData.zero).failed then none
    else some (env.unmarshal (line.drop dataPrefix.length) SSEData.zero).obj
  else none

/-- The events up to and including the first finished one, or all of them when none is
finished. -/
def uptoFinished : List SSEData → List SSEData
  | [] => []
  | ev :: evs => if ev.Finished then [ev] else ev :: uptoFinished evs

/-- The aggregated content in the words of the spec: the concatenation, in input order,
of the top-level text of every decoded event up to and including the first finished
one. -/
def aggregatedContent (env : Env) (lines : List (List Char)) : String :=
  String.join ((uptoFinished (lines.filterMap (decodedEvent env))).map (fun ev => ev.Text))

/-- The response `HandleNonStreamingResponse` builds around the content `content`. -/
def aggregatedResponse (env : Env) (content : String) : ChatCompletionResponse :=
  { ID := "chatcmpl-" ++ env.chatId, Object := "chat.completion", Created := env.now,
    Model := "hello", SystemFingerprint := "hello",
    Choices := [{ Index := 0, Message := { Role := "assistant", Content := content },
                  FinishReason := "stop" }],
    Usage := { PromptTokens := 0, CompletionTokens := 0, TotalTokens := 0 } }

/-- A frame that is a chunk and not a terminal one. -/
def NonTerminal (f : Frame) : Prop := f.isTerminal = false ∧ f ≠ Frame.done

/-- The pass of the streaming loop that starts in state `s` decodes a finished event from
`line`: the line is a data line, its payload decodes without error into the object the
pool hands out, and the decoded object has `Finished` set. -/
def decodesFinished (env : Env) (s : LoopState) (line : List Char) : Bool :=
  HasPrefix line dataPrefix && (TrimPrefix line dataPrefix != []) &&
    !(env.unmarshal (TrimPrefix line dataPrefix) (poolGet s.pool).1).failed &&
    (env.unmarshal (TrimPrefix line dataPrefix) (poolGet s.pool).1).obj.Finished

/-- Some pass of the loop, run from state `s` over `lines`, decodes a finished event. -/
def finishedDecoded (env : Env) (model : String) (w : Writer) :
    LoopState → List (List Char) → Bool
  | _, [] => false
  | s, line :: rest =>
    decodesFinished env s line ||
      match iteration env model w s line with
      | .next s1 => finishedDecoded env model w s1 rest
      | .ret _ _ => false

/-- Two loop states that the loop body cannot tell apart: the same `thinkFlag`, written
frames and call count, and pools from which `Get` hands out the same object and leaves
the same rest. -/
def SameView (s t : LoopState) : Prop :=
  s.thinkFlag = t.thinkFlag ∧ s.written = t.written ∧ s.calls = t.calls ∧
    poolGet s.pool = poolGet t.pool

/-- Two outcomes with the same observable part: both go on, in states the loop body
cannot tell apart, or both return, with the same error, written frames and `thinkFlag`. -/
def OutcomeSame : Outcome → Outcome → Prop
  | .next s, .next t => SameView s t
  | .ret s e, .ret t e1 => e = e1 ∧ s.written = t.written ∧ s.thinkFlag = t.thinkFlag
  | _, _ => False

/-- The loop of `StreamMonicaSSEToClient` with `&SSEData{}` in place of
`sseDataPool.Get()`: every pass decodes into a fresh zero-valued object (it finds the pool
empty). -/
def runLinesFresh (env : Env) (model : String) (w : Writer) :
    LoopState → List (List Char) → Outcome
  | s, [] => .next s
  | s, line :: rest =>
    match iteration env model w { s with pool := [] } line with
    | .next s1 => runLinesFresh env model w s1 rest
    | .ret s1 err => .ret s1 err

/-- The frames written by the loop that decodes every data line into a fresh zero-valued
object. -/
def writtenWithoutPool (env : Env) (model : String) (w : Writer) (r : Reader) : List Frame :=
  match runLinesFresh env model w (initialState []) (splitLines r.data).1 with
  | .ret s _ => s.written
  | .next s => s.written

/-- An event of the thinking phase: a thinking event, or a thinking-detail event with its
reasoning detail. -/
inductive ThinkEvent where
  | thinking
  | detail (a : String)
deriving DecidableEq

/-- The content of the chunk the translator emits for an event of the thinking phase. -/
def ThinkEvent.content : ThinkEvent → String
  | .thinking => "<think>"
  | .detail a => a

/-- The payload decodes to the given event of the thinking phase. -/
def DecodesThink (env : Env) (payload : List Char) : ThinkEvent → Prop
  | .thinking =>
    DecodesTo env payload (fun o => o.Finished = false ∧ o.AgentStatus.Type_ = "thinking")
  | .detail a =>
    DecodesTo env payload
      (fun o => o.Finished = false ∧ o.AgentStatus.Type_ = "thinking_detail_stream" ∧
        o.AgentStatus.Metadata.ReasoningDetail = a)

/-- What the translator does to the think block when it emits a content chunk: it opens
it (a thinking event), passes a reasoning detail on, inserts `</think>` in front of a
plain text (closing the block), or emits a plain text verbatim. -/
inductive Mark where
  | opened
  | detail
  | closed
  | plain
deriving DecidableEq

/-- The marks of plain-text events. -/
def Mark.isPlainText : Mark → Bool
  | .closed => true
  | .plain => true
  | _ => false

/-- The content chunk that the pass of the loop in state `s` builds for `line`, with its
mark; `none` when the pass builds no content chunk (the line is skipped, its payload does
not decode, or the event is finished). -/
def passEmit (env : Env) (model : String) (s : LoopState) (line : List Char) :
    Option (Mark × Frame) :=
  if HasPrefix line dataPrefix && (TrimPrefix line dataPrefix != []) &&
      !(env.unmarshal (TrimPrefix line dataPrefix) (poolGet s.pool).1).failed &&
      !(env.unmarshal (TrimPrefix line dataPrefix) (poolGet s.pool).1).obj.Finished then
    some
      (if (env.unmarshal (TrimPrefix line dataPrefix) (poolGet s.pool).1).obj.AgentStatus.Type_
            = "thinking" then Mark.opened
       else if
          (env.unmarshal (TrimPrefix line dataPrefix) (poolGet s.pool).1).obj.AgentStatus.Type_
            = "thinking_detail_stream" then Mark.detail
       else if s.thinkFlag then Mark.closed
       else Mark.plain,
       Frame.chunk (buildMsg env model s.thinkFlag
        (env.unmarshal (TrimPrefix line dataPrefix) (poolGet s.pool).1).obj).1)
  else none

/-- The content chunks that the run of the loop from state `s` over `lines` writes, in
order, each with its mark. -/
def trace (env : Env) (model : String) (w : Writer) :
    LoopState → List (List Char) → List (Mark × Frame)
  | _, [] => []
  | s, line :: rest =>
    match iteration env model w s line with
    | .next s1 => (passEmit env model s line).toList ++ trace env model w s1 rest
    | .ret _ _ => []

/-- The think state after an event with the given mark: a thinking event sets it, a
plain-text event clears it, a thinking-detail event leaves it. -/
def flagStep (b : Bool) : Mark → Bool
  | .opened => true
  | .detail => b
  | .closed => false
  | .plain => false

/-- At least one thinking event has been processed since the last plain-text event (or
since the start). -/
def ThinkingOpen (marks : List Mark) : Prop :=
  ∃ pre post, marks = pre ++ Mark.opened :: post ∧ ∀ m ∈ post, m.isPlainText = false

/-- A sequence of marks that can arise from think state `b`: `</think>` is inserted only
in state Thinking, and a text goes out verbatim only in state Normal. -/
def Balanced : Bool → List Mark → Prop
  | _, [] => True
  | b, m :: ms =>
    (m = Mark.closed → b = true) ∧ (m = Mark.plain → b = false) ∧ Balanced (flagStep b m) ms

/-- The content of the chunk for a decoded event that is not finished, in the words of
the table of the frame builder: `<think>` for a thinking event, the reasoning detail for a
thinking-detail event, and for any other event its text, with `</think>` in front when
the state is Thinking. -/
def eventContent (thinking : Bool) (ev : SSEData) : String :=
  if ev.AgentStatus.Type_ = "thinking" then "<think>"
  else if ev.AgentStatus.Type_ = "thinking_detail_stream" then
    ev.AgentStatus.Metadata.ReasoningDetail
  else if thinking then "</think>" ++ ev.Text
  else ev.Text

/-- The event that the pass of the loop in state `s` decodes from `line`, when it is not a
finished one, together with the value of `thinkFlag` before the pass; `none` when the line
is skipped, its payload does not decode, or the event is finished. -/
def passEvent (env : Env) (s : LoopState) (line : List Char) : Option (Bool × SSEData) :=
  if HasPrefix line dataPrefix && (TrimPrefix line dataPrefix != []) &&
      !(env.unmarshal (TrimPrefix line dataPrefix) (poolGet s.pool).1).failed &&
      !(env.unmarshal (TrimPrefix line dataPrefix) (poolGet s.pool).1).obj.Finished then
    some (s.thinkFlag, (env.unmarshal (TrimPrefix line dataPrefix) (poolGet s.pool).1).obj)
  else none

/-- The events, not finished, that the run of the loop from state `s` over `lines`
decodes, in order, each with the value of `thinkFlag` before its pass. -/
def events (env : Env) (model : String) (w : Writer) :
    LoopState → List (List Char) → List (Bool × SSEData)
  | _, [] => []
  | s, line :: rest =>
    match iteration env model w s line with
    | .next s1 => (passEvent env s line).toList ++ events env model w s1 rest
    | .ret _ _ => []

/-! ## A concrete session -/

/-- The payload of a thinking event. -/
def payloadThinking : List Char :=
  "\x7b\"agent_status\":\x7b\"type\":\"thinking\"\x7d\x7d".toList

/-- The payload of a thinking-detail event with reasoning detail `A` and no top-level
text. -/
def payloadDetailA : List Char :=
  ("\x7b\"agent_status\":\x7b\"type\":\"thinking_detail_stream\"," ++
    "\"metadata\":\x7b\"reasoning_detail\":\"A\"\x7d\x7d\x7d").toList

/-- The payload of a plain-text event with text `B`. -/
def payloadTextB : List Char := "\x7b\"text\":\"B\"\x7d".toList

/-- The payload of a plain-text event with text `Hello`. -/
def payloadTextHello : List Char := "\x7b\"text\":\"Hello\"\x7d".toList

/-- The payload of a finished event. -/
def payloadFinished : List Char := "\x7b\"finished\":true\x7d".toList

/-- The payload of an event with an agent status of another type and no top-level
text. -/
def payloadSearching : List Char :=
  "\x7b\"agent_status\":\x7b\"type\":\"searching\"\x7d\x7d".toList

/-- The payload of an event with top-level text `C` and an agent status of another type
that has a text and a reasoning detail of its own. -/
def payloadSearchingText : List Char :=
  ("\x7b\"text\":\"C\",\"agent_status\":\x7b\"type\":\"searching\"," ++
    "\"text\":\"looking\",\"metadata\":\x7b\"reasoning_detail\":\"R\"\x7d\x7d\x7d").toList

/-- The payload of an event that names no field: the empty JSON object. -/
def payloadEmpty : List Char := "\x7b\x7d".toList

/-- A payload that is not valid JSON: an object cut off before its closing brace. -/
def payloadTruncated : List Char := "\x7b\"finished\":true".toList

/-- A decoder for the payloads above, each followed by the newline of its line: it
assigns the fields the JSON object names and leaves the other fields of the object as
they were, as decoding into a Go struct does. It decodes in one pass, as sonic does: on
the truncated object it has assigned `Finished` when it meets the end of the input and
reports the syntax error. -/
def sampleUnmarshal : Unmarshal :=
  scriptedUnmarshal
    [ (payloadThinking ++ ['\n'], fun o =>
        { obj := { o with AgentStatus := { o.AgentStatus with Type_ := "thinking" } },
          failed := false }),
      (payloadDetailA ++ ['\n'], fun o =>
        { obj := { o with AgentStatus :=
                    { o.AgentStatus with
                      Type_ := "thinking_detail_stream",
                      Metadata := { o.AgentStatus.Metadata with ReasoningDetail := "A" } } },
          failed := false }),
      (payloadTextB ++ ['\n'], fun o => { obj := { o with Text := "B" }, failed := false }),
      (payloadTextHello ++ ['\n'], fun o =>
        { obj := { o with Text := "Hello" }, failed := false }),
      (payloadFinished ++ ['\n'], fun o =>
        { obj := { o with Finished := true }, failed := false }),
      (payloadTruncated ++ ['\n'], fun o =>
        { obj := { o with Finished := true }, failed := true }),
      (payloadEmpty ++ ['\n'], fun o => { obj := o, failed := false }),
      (payloadSearching ++ ['\n'], fun o =>
        { obj := { o with AgentStatus := { o.AgentStatus with Type_ := "searching" } },
          failed := false }),
      (payloadSearchingText ++ ['\n'], fun o =>
        { obj := { o with
                   Text := "C",
                   AgentStatus :=
                    { o.AgentStatus with
                      Type_ := "searching", Text := "looking",
                      Metadata := { o.AgentStatus.Metadata with ReasoningDetail := "R" } } },
          failed := false }) ]

/-- A session environment with the decoder `sampleUnmarshal`. -/
def sampleEnv : Env :=
  { unmarshal := sampleUnmarshal, chatId := "Kq3fZ8", now := 1700000000,
    fingerprint := "fp7Hc2" }

/-- A destination on which the first `WriteString` call is accepted and the second one
reports an error (the peer has gone away in between). -/
def Writer.brokenAfterFirst : Writer := fun k => if k = 1 then some "broken pipe" else none

/-! ## Lemmas on line reading -/

theorem splitLines_line (body rest : List Char) (h : '\n' ∉ body) :
    splitLines (body ++ '\n' :: rest) =
      ((body ++ ['\n']) :: (splitLines rest).1, (splitLines rest).2) := by
  induction body with
  | nil => simp [splitLines]
  | cons c b ih =>
    have hc : c ≠ '\n' := fun e => h (by simp [e])
    have hb : '\n' ∉ b := fun e => h (by simp [e])
    simp [splitLines, hc, ih hb]

theorem splitLines_fragment (frag : List Char) (h : '\n' ∉ frag) :
    splitLines frag = ([], frag) := by
  induction frag with
  | nil => simp [splitLines]
  | cons c b ih =>
    have hc : c ≠ '\n' := fun e => h (by simp [e])
    have hb : '\n' ∉ b := fun e => h (by simp [e])
    simp [splitLines, hc, ih hb]

theorem readUntilNewline_some (data line rest : List Char)
    (h : readUntilNewline data = (line, some rest)) :
    ∃ body, '\n' ∉ body ∧ line = body ++ ['\n'] ∧ data = body ++ '\n' :: rest := by
  induction data generalizing line with
  | nil => simp [readUntilNewline] at h
  | cons c cs ih =>
    by_cases hc : c = '\n'
    · simp only [readUntilNewline, hc, if_true, Prod.mk.injEq, Option.some.injEq] at h
      obtain ⟨rfl, rfl⟩ := h
      exact ⟨[], by simp, rfl, by simp [hc]⟩
    · simp only [readUntilNewline, hc, if_false, Prod.mk.injEq] at h
      obtain ⟨h1, h2⟩ := h
      obtain ⟨body, hb, hl, hd⟩ := ih (readUntilNewline cs).1 (Prod.ext rfl h2)
      refine ⟨c :: body, ?_, ?_, ?_⟩
      · simp only [List.mem_cons, not_or]
        exact ⟨fun e => hc e.symm, hb⟩
      · rw [← h1, hl]; rfl
      · rw [hd]; rfl

theorem readUntilNewline_none (data line : List Char)
    (h : readUntilNewline data = (line, none)) : line = data ∧ '\n' ∉ data := by
  induction data generalizing line with
  | nil =>
    simp only [readUntilNewline, Prod.mk.injEq, and_true] at h
    exact ⟨h.symm, by simp⟩
  | cons c cs ih =>
    by_cases hc : c = '\n'
    · simp [readUntilNewline, hc] at h
    · simp only [readUntilNewline, hc, if_false, Prod.mk.injEq] at h
      obtain ⟨h1, h2⟩ := h
      obtain ⟨hl, hn⟩ := ih (readUntilNewline cs).1 (Prod.ext rfl h2)
      refine ⟨by rw [← h1, hl], ?_⟩
      simp only [List.mem_cons, not_or]
      exact ⟨fun e => hc e.symm, hn⟩

/-- A `ReadString` call that returns no error returns the first line of `splitLines`
and leaves a reader whose lines are the remaining ones. -/
theorem readString_line (r r1 : Reader) (line : List Char)
    (h : ReadString r = (line, none, r1)) :
    splitLines r.data = (line :: (splitLines r1.data).1, (splitLines r1.data).2) ∧
      r1.err = r.err := by
  unfold ReadString at h
  cases hu : readUntilNewline r.data with
  | mk l o =>
    cases o with
    | none => rw [hu] at h; simp at h
    | some rest =>
      rw [hu] at h
      simp only [Prod.mk.injEq, true_and] at h
      obtain ⟨rfl, rfl⟩ := h
      obtain ⟨body, hb, rfl, hd⟩ := readUntilNewline_some _ _ _ hu
      exact ⟨by rw [hd]; exact splitLines_line body rest hb, rfl⟩

/-- A `ReadString` call that returns an error returns the unterminated rest of
`splitLines`, after all lines have been read, and the error is the reader's. -/
theorem readString_end (r r1 : Reader) (line : List Char) (err : ReadErr)
    (h : ReadString r = (line, some err, r1)) :
    splitLines r.data = ([], line) ∧ err = r.err := by
  unfold ReadString at h
  cases hu : readUntilNewline r.data with
  | mk l o =>
    cases o with
    | some rest => rw [hu] at h; simp at h
    | none =>
      rw [hu] at h
      simp only [Prod.mk.injEq, Option.some.injEq] at h
      obtain ⟨rfl, rfl, _⟩ := h
      obtain ⟨hl, hn⟩ := readUntilNewline_none _ _ hu
      exact ⟨by rw [hl]; exact splitLines_fragment _ hn, rfl⟩

theorem splitLines_dataLine (payload rest : List Char) (h : '\n' ∉ payload) :
    splitLines (dataLine payload ++ rest) =
      (dataLine payload :: (splitLines rest).1, (splitLines rest).2) := by
  have hd : '\n' ∉ dataPrefix ++ payload := by
    simp only [List.mem_append, not_or]
    exact ⟨by decide, h⟩
  have := splitLines_line (dataPrefix ++ payload) rest hd
  simpa [dataLine, List.append_assoc] using this

theorem hasPrefix_dataLine (payload : List Char) :
    HasPrefix (dataLine payload) dataPrefix = true := by
  simp [HasPrefix, dataLine, List.append_assoc]

theorem trimPrefix_dataLine (payload : List Char) :
    TrimPrefix (dataLine payload) dataPrefix = payload ++ ['\n'] := by
  simp [TrimPrefix, HasPrefix, dataLine, List.append_assoc]

theorem isLine_dataLine (payload : List Char) (h : '\n' ∉ payload) :
    IsLine (dataLine payload) := by
  refine ⟨dataPrefix ++ payload, ?_, by simp [dataLine]⟩
  simp only [List.mem_append, not_or]
  exact ⟨by decide, h⟩

theorem splitLines_lines (ls : List (List Char)) (rest : List Char)
    (h : ∀ l ∈ ls, IsLine l) :
    splitLines (ls.flatten ++ rest) = (ls ++ (splitLines rest).1, (splitLines rest).2) := by
  induction ls with
  | nil => simp
  | cons l ls ih =>
    obtain ⟨body, hb, rfl⟩ := h l (by simp)
    have ih1 := ih (fun x hx => h x (by simp [hx]))
    have := splitLines_line body (ls.flatten ++ rest) hb
    have e : ((body ++ ['\n']) :: ls).flatten ++ rest =
        body ++ '\n' :: (ls.flatten ++ rest) := by simp
    rw [e, this, ih1, List.cons_append]

theorem splitLines_isLine (data : List Char) : ∀ l ∈ (splitLines data).1, IsLine l := by
  induction data with
  | nil => intro l hl; simp [splitLines] at hl
  | cons c cs ih =>
    intro l hl
    by_cases hc : c = '\n'
    · simp only [splitLines, hc, if_true, List.mem_cons] at hl
      rcases hl with rfl | hl
      · exact ⟨[], by simp, rfl⟩
      · exact ih l hl
    · simp only [splitLines, hc, if_false] at hl
      cases hs : (splitLines cs).1 with
      | nil => rw [hs] at hl; simp at hl
      | cons l1 ls =>
        rw [hs] at hl ih
        simp only [List.mem_cons] at hl
        rcases hl with rfl | hl
        · obtain ⟨body, hb, rfl⟩ := ih l1 (by simp)
          refine ⟨c :: body, ?_, rfl⟩
          simp only [List.mem_cons, not_or]
          exact ⟨fun e => hc e.symm, hb⟩
        · exact ih l (by simp [hl])

theorem trimPrefix_ne_nil (l : List Char) (hl : IsLine l)
    (hp : HasPrefix l dataPrefix = true) : TrimPrefix l dataPrefix ≠ [] := by
  obtain ⟨body, hb, rfl⟩ := hl
  obtain ⟨t, ht⟩ := List.isPrefixOf_iff_prefix.1 hp
  simp only [TrimPrefix, hp, if_true]
  rw [← ht, List.drop_left]
  rintro rfl
  rw [List.append_nil] at ht
  have : '\n' ∈ dataPrefix := by rw [ht]; simp
  exact absurd this (by decide)

theorem trimPrefix_eq_drop (l : List Char) (hp : HasPrefix l dataPrefix = true) :
    TrimPrefix l dataPrefix = l.drop dataPrefix.length := by
  simp [TrimPrefix, hp]

theorem string_join_cons (a : String) (l : List String) :
    String.join (a :: l) = a ++ String.join l := by
  apply String.ext
  simp [String.join_eq]

/-! ## Lemmas on the pool -/

theorem clean_zero : Clean SSEData.zero := ⟨rfl, rfl⟩

theorem clean_resetForPool (o : SSEData) : Clean (resetForPool o) := ⟨rfl, rfl⟩

theorem clean_poolGet (pool : List SSEData) (h : CleanPool pool) :
    Clean (poolGet pool).1 ∧ CleanPool (poolGet pool).2 := by
  cases pool with
  | nil => exact ⟨clean_zero, fun o ho => by simp [poolGet] at ho⟩
  | cons a rest =>
    exact ⟨h a (by simp), fun o ho => h o (List.mem_cons_of_mem a ho)⟩

theorem cleanPool_put (o : SSEData) (pool : List SSEData) (ho : Clean o)
    (h : CleanPool pool) : CleanPool (poolPut o pool) := by
  intro x hx
  simp only [poolPut, List.mem_cons] at hx
  rcases hx with rfl | hx
  · exact ho
  · exact h x hx

/-! ## Lemmas on the switch -/

theorem buildMsg_finished (env : Env) (model : String) (flag : Bool) (o : SSEData)
    (h : o.Finished = true) :
    buildMsg env model flag o = (terminalChunk env model, o, flag) := by
  simp [buildMsg, h, terminalChunk, sseObject, ChatMessageRoleAssistant, FinishReasonStop]

theorem buildMsg_thinking (env : Env) (model : String) (flag : Bool) (o : SSEData)
    (h : o.Finished = false) (ht : o.AgentStatus.Type_ = "thinking") :
    buildMsg env model flag o = (contentChunk env model "<think>", o, true) := by
  simp [buildMsg, h, ht, contentChunk, sseObject, ChatMessageRoleAssistant, FinishReasonNull]

theorem buildMsg_detail (env : Env) (model : String) (flag : Bool) (o : SSEData)
    (h : o.Finished = false) (ht : o.AgentStatus.Type_ = "thinking_detail_stream") :
    buildMsg env model flag o =
      (contentChunk env model o.AgentStatus.Metadata.ReasoningDetail, o, flag) := by
  have hne : ¬ ("thinking_detail_stream" = "thinking") := by decide
  simp [buildMsg, h, ht, hne, contentChunk, sseObject, ChatMessageRoleAssistant,
    FinishReasonNull]

theorem buildMsg_plain (env : Env) (model : String) (flag : Bool) (o : SSEData)
    (h : o.Finished = false) (ht : o.AgentStatus.Type_ ≠ "thinking")
    (hd : o.AgentStatus.Type_ ≠ "thinking_detail_stream") :
    buildMsg env model flag o =
      (contentChunk env model (if flag then "</think>" ++ o.Text else o.Text),
       (if flag then { o with Text := "</think>" ++ o.Text } else o), false) := by
  cases flag <;>
    simp [buildMsg, h, ht, hd, contentChunk, sseObject, ChatMessageRoleAssistant,
      FinishReasonNull]

theorem buildMsg_keeps_finished (env : Env) (model : String) (flag : Bool) (o : SSEData) :
    (buildMsg env model flag o).2.1.Finished = o.Finished := by
  unfold buildMsg
  split_ifs <;> rfl

/-! ## Lemmas on one pass through the loop body -/

/-- A data line whose payload decodes, on a destination that accepts the write, and whose
object is not finished: the pass emits the chunk of the switch and goes on. -/
theorem iteration_decoded (env : Env) (model : String) (w : Writer) (s : LoopState)
    (payload : List Char)
    (hok : (env.unmarshal (payload ++ ['\n']) (poolGet s.pool).1).failed = false)
    (hfin : (env.unmarshal (payload ++ ['\n']) (poolGet s.pool).1).obj.Finished = false)
    (hw : w s.calls = none) :
    iteration env model w s (dataLine payload) =
      .next { thinkFlag :=
                (buildMsg env model s.thinkFlag
                  (env.unmarshal (payload ++ ['\n']) (poolGet s.pool).1).obj).2.2,
              pool := poolPut (resetForPool
                (buildMsg env model s.thinkFlag
                  (env.unmarshal (payload ++ ['\n']) (poolGet s.pool).1).obj).2.1)
                (poolGet s.pool).2,
              written := s.written ++ [Frame.chunk
                (buildMsg env model s.thinkFlag
                  (env.unmarshal (payload ++ ['\n']) (poolGet s.pool).1).obj).1],
              calls := s.calls + 1 } := by
  simp [iteration, hasPrefix_dataLine, trimPrefix_dataLine, hok, hw,
    buildMsg_keeps_finished, hfin]

/-- A data line whose payload decodes to a finished object, on a destination that accepts
both writes: the pass emits the chunk of the switch and the sentinel, and returns nil. -/
theorem iteration_finished (env : Env) (model : String) (w : Writer) (s : LoopState)
    (payload : List Char)
    (hok : (env.unmarshal (payload ++ ['\n']) (poolGet s.pool).1).failed = false)
    (hfin : (env.unmarshal (payload ++ ['\n']) (poolGet s.pool).1).obj.Finished = true)
    (hw : w s.calls = none) (hw1 : w (s.calls + 1) = none) :
    iteration env model w s (dataLine payload) =
      .ret { thinkFlag := s.thinkFlag, pool := (poolGet s.pool).2,
             written := s.written ++ [Frame.chunk (terminalChunk env model), Frame.done],
             calls := s.calls + 2 } none := by
  simp [iteration, hasPrefix_dataLine, trimPrefix_dataLine, hok, hw, hw1,
    buildMsg_finished, hfin]

/-- A thinking event: the pass emits the chunk `<think>` and sets `thinkFlag`. -/
theorem step_thinking (env : Env) (model : String) (w : Writer) (s : LoopState)
    (payload : List Char) (hp : CleanPool s.pool) (hw : w s.calls = none)
    (h : DecodesTo env payload
      (fun o => o.Finished = false ∧ o.AgentStatus.Type_ = "thinking")) :
    ∃ s1, iteration env model w s (dataLine payload) = .next s1 ∧
      s1.thinkFlag = true ∧
      s1.written = s.written ++ [Frame.chunk (contentChunk env model "<think>")] ∧
      s1.calls = s.calls + 1 ∧ CleanPool s1.pool := by
  obtain ⟨hc, hrest⟩ := clean_poolGet s.pool hp
  obtain ⟨hok, hfin, hty⟩ := h _ hc
  refine ⟨_, iteration_decoded env model w s payload hok hfin hw, ?_, ?_, rfl, ?_⟩
  · simp [buildMsg_thinking env model s.thinkFlag _ hfin hty]
  · simp [buildMsg_thinking env model s.thinkFlag _ hfin hty]
  · exact cleanPool_put _ _ (clean_resetForPool _) hrest

/-- A thinking-detail event: the pass emits the reasoning detail and keeps `thinkFlag`. -/
theorem step_detail (env : Env) (model : String) (w : Writer) (s : LoopState)
    (payload : List Char) (a : String) (hp : CleanPool s.pool) (hw : w s.calls = none)
    (h : DecodesTo env payload
      (fun o => o.Finished = false ∧ o.AgentStatus.Type_ = "thinking_detail_stream" ∧
        o.AgentStatus.Metadata.ReasoningDetail = a)) :
    ∃ s1, iteration env model w s (dataLine payload) = .next s1 ∧
      s1.thinkFlag = s.thinkFlag ∧
      s1.written = s.written ++ [Frame.chunk (contentChunk env model a)] ∧
      s1.calls = s.calls + 1 ∧ CleanPool s1.pool := by
  obtain ⟨hc, hrest⟩ := clean_poolGet s.pool hp
  obtain ⟨hok, hfin, hty, ha⟩ := h _ hc
  refine ⟨_, iteration_decoded env model w s payload hok hfin hw, ?_, ?_, rfl, ?_⟩
  · simp [buildMsg_detail env model s.thinkFlag _ hfin hty]
  · simp [buildMsg_detail env model s.thinkFlag _ hfin hty, ha]
  · exact cleanPool_put _ _ (clean_resetForPool _) hrest

/-- A plain-text event: the pass emits the text, with `</think>` in front when
`thinkFlag` was set, and clears `thinkFlag`. -/
theorem step_plain (env : Env) (model : String) (w : Writer) (s : LoopState)
    (payload : List Char) (b : String) (hp : CleanPool s.pool) (hw : w s.calls = none)
    (h : DecodesTo env payload
      (fun o => o.Finished = false ∧ o.AgentStatus.Type_ = "" ∧ o.Text = b)) :
    ∃ s1, iteration env model w s (dataLine payload) = .next s1 ∧
      s1.thinkFlag = false ∧
      s1.written = s.written ++ [Frame.chunk (contentChunk env model
        (if s.thinkFlag then "</think>" ++ b else b))] ∧
      s1.calls = s.calls + 1 ∧ CleanPool s1.pool := by
  obtain ⟨hc, hrest⟩ := clean_poolGet s.pool hp
  obtain ⟨hok, hfin, hty, hb⟩ := h _ hc
  have h1 : (env.unmarshal (payload ++ ['\n']) (poolGet s.pool).1).obj.AgentStatus.Type_
      ≠ "thinking" := by rw [hty]; decide
  have h2 : (env.unmarshal (payload ++ ['\n']) (poolGet s.pool).1).obj.AgentStatus.Type_
      ≠ "thinking_detail_stream" := by rw [hty]; decide
  refine ⟨_, iteration_decoded env model w s payload hok hfin hw, ?_, ?_, rfl, ?_⟩
  · simp [buildMsg_plain env model s.thinkFlag _ hfin h1 h2]
  · simp [buildMsg_plain env model s.thinkFlag _ hfin h1 h2, hb]
  · exact cleanPool_put _ _ (clean_resetForPool _) hrest

/-- A finished event: the pass emits the terminal chunk and the sentinel and returns
nil; `thinkFlag` is left as it was. -/
theorem step_finished (env : Env) (model : String) (w : Writer) (s : LoopState)
    (payload : List Char) (hp : CleanPool s.pool) (hw : w s.calls = none)
    (hw1 : w (s.calls + 1) = none)
    (h : DecodesTo env payload (fun o => o.Finished = true)) :
    ∃ s1, iteration env model w s (dataLine payload) = .ret s1 none ∧
      s1.thinkFlag = s.thinkFlag ∧
      s1.written = s.written ++ [Frame.chunk (terminalChunk env model), Frame.done] := by
  obtain ⟨hc, _⟩ := clean_poolGet s.pool hp
  obtain ⟨hok, hfin⟩ := h _ hc
  exact ⟨_, iteration_finished env model w s payload hok hfin hw hw1, rfl, rfl⟩

/-- A run of plain-text events from a state with `thinkFlag` unset: one chunk per event,
with the text verbatim. -/
theorem runLines_plain (env : Env) (model : String) (evs : List (List Char × String))
    (hevs : ∀ pt ∈ evs, DecodesTo env pt.1
      (fun o => o.Finished = false ∧ o.AgentStatus.Type_ = "" ∧ o.Text = pt.2))
    (s : LoopState) (hp : CleanPool s.pool) (hflag : s.thinkFlag = false) :
    ∃ s1, (∀ rest, runLines env model Writer.healthy s
              (evs.map (fun pt => dataLine pt.1) ++ rest) =
            runLines env model Writer.healthy s1 rest) ∧
      s1.thinkFlag = false ∧
      s1.written = s.written ++
        evs.map (fun pt => Frame.chunk (contentChunk env model pt.2)) ∧
      CleanPool s1.pool := by
  induction evs generalizing s with
  | nil => exact ⟨s, fun rest => rfl, hflag, by simp, hp⟩
  | cons pt evs ih =>
    obtain ⟨s1, e1, f1, w1, _, q1⟩ := step_plain env model Writer.healthy s pt.1 pt.2 hp rfl
      (hevs pt (by simp))
    obtain ⟨s2, e2, f2, w2, q2⟩ := ih (fun x hx => hevs x (by simp [hx])) s1 q1 f1
    refine ⟨s2, fun rest => ?_, f2, ?_, q2⟩
    · simp only [List.map_cons, List.cons_append, runLines, e1]
      exact e2 rest
    · rw [w2, w1, hflag]; simp

theorem buildMsg_nonTerminal (env : Env) (model : String) (flag : Bool) (o : SSEData)
    (h : o.Finished = false) : NonTerminal (Frame.chunk (buildMsg env model flag o).1) := by
  refine ⟨?_, fun e => by cases e⟩
  unfold buildMsg
  simp only [h, Bool.false_eq_true, if_false]
  split_ifs <;> simp [Frame.isTerminal, FinishReasonStop, FinishReasonNull]

/-- A pass that goes on has appended nothing but non-terminal chunks. -/
theorem iteration_next_written (env : Env) (model : String) (w : Writer)
    (s s1 : LoopState) (line : List Char)
    (h : iteration env model w s line = .next s1) :
    ∃ extra, s1.written = s.written ++ extra ∧ ∀ f ∈ extra, NonTerminal f := by
  by_cases hp : HasPrefix line dataPrefix = true
  · by_cases hne : TrimPrefix line dataPrefix = []
    · simp only [iteration, hp, hne, Bool.not_true, Bool.false_eq_true, if_false, if_true,
        Outcome.next.injEq] at h
      subst h; exact ⟨[], by simp, by simp⟩
    · by_cases hok : (env.unmarshal (TrimPrefix line dataPrefix) (poolGet s.pool).1).failed
          = true
      · simp only [iteration, hp, hne, hok, Bool.not_true, Bool.false_eq_true, if_false,
          if_true, Outcome.next.injEq] at h
        subst h; exact ⟨[], by simp, by simp⟩
      · cases hw : w s.calls with
        | some cause => simp [iteration, hp, hne, hok, hw] at h
        | none =>
          by_cases hfin : (env.unmarshal (TrimPrefix line dataPrefix)
              (poolGet s.pool).1).obj.Finished = true
          · simp [iteration, hp, hne, hok, hw, hfin, buildMsg_keeps_finished] at h
          · simp only [iteration, hp, hne, hok, hw, hfin, buildMsg_keeps_finished,
              Bool.not_true, Bool.false_eq_true, if_false, Outcome.next.injEq] at h
            subst h
            refine ⟨[_], rfl, ?_⟩
            intro f hf
            rw [List.mem_singleton] at hf
            subst hf
            exact buildMsg_nonTerminal env model _ _ (by simpa using hfin)
  · simp only [iteration, hp, Bool.not_false, if_true, Outcome.next.injEq] at h
    subst h; exact ⟨[], by simp, by simp⟩

/-- A pass that returns has appended nothing, or the terminal chunk, or the terminal
chunk and the sentinel. -/
theorem iteration_ret_written (env : Env) (model : String) (w : Writer)
    (s s1 : LoopState) (err : Option Error) (line : List Char)
    (h : iteration env model w s line = .ret s1 err) :
    s1.written = s.written ∨
      s1.written = s.written ++ [Frame.chunk (terminalChunk env model)] ∨
      s1.written = s.written ++ [Frame.chunk (terminalChunk env model), Frame.done] := by
  by_cases hp : HasPrefix line dataPrefix = true
  · by_cases hne : TrimPrefix line dataPrefix = []
    · simp [iteration, hp, hne] at h
    · by_cases hok : (env.unmarshal (TrimPrefix line dataPrefix) (poolGet s.pool).1).failed
          = true
      · simp [iteration, hp, hne, hok] at h
      · cases hw : w s.calls with
        | some cause =>
          simp only [iteration, hp, hne, hok, hw, Bool.not_true, Bool.false_eq_true,
            if_false, Outcome.ret.injEq] at h
          obtain ⟨h, _⟩ := h
          subst h; exact Or.inl rfl
        | none =>
          by_cases hfin : (env.unmarshal (TrimPrefix line dataPrefix)
              (poolGet s.pool).1).obj.Finished = true
          · simp only [iteration, hp, hne, hok, hw, hfin, buildMsg_keeps_finished,
              buildMsg_finished, Bool.not_true, Bool.false_eq_true, if_false, if_true,
              Outcome.ret.injEq] at h
            obtain ⟨h, _⟩ := h
            subst h
            cases hw1 : w (s.calls + 1) with
            | none => exact Or.inr (Or.inr (by simp))
            | some _ => exact Or.inr (Or.inl (by simp))
          · simp [iteration, hp, hne, hok, hw, hfin, buildMsg_keeps_finished] at h
  · simp [iteration, hp] at h

/-- On a destination that accepts the writes, a pass that decodes a finished event emits
the terminal chunk and the sentinel and returns nil. -/
theorem iteration_of_decodesFinished (env : Env) (model : String) (w : Writer)
    (s : LoopState) (line : List Char) (h : decodesFinished env s line = true)
    (hw : w s.calls = none) (hw1 : w (s.calls + 1) = none) :
    iteration env model w s line =
      .ret { thinkFlag := s.thinkFlag, pool := (poolGet s.pool).2,
             written := s.written ++ [Frame.chunk (terminalChunk env model), Frame.done],
             calls := s.calls + 2 } none := by
  simp only [decodesFinished, Bool.and_eq_true, bne_iff_ne, ne_eq, Bool.not_eq_true'] at h
  obtain ⟨⟨⟨hp, hne⟩, hok⟩, hfin⟩ := h
  simp [iteration, hp, hne, hok, hw, hw1, buildMsg_finished, hfin]

/-- On a destination that accepts the write, a pass that decodes no finished event goes
on. -/
theorem iteration_of_not_decodesFinished (env : Env) (model : String) (w : Writer)
    (s : LoopState) (line : List Char) (h : decodesFinished env s line = false)
    (hw : w s.calls = none) :
    ∃ s1, iteration env model w s line = .next s1 := by
  by_cases hp : HasPrefix line dataPrefix = true
  · by_cases hne : TrimPrefix line dataPrefix = []
    · simp [iteration, hp, hne]
    · by_cases hok : (env.unmarshal (TrimPrefix line dataPrefix) (poolGet s.pool).1).failed
          = true
      · simp [iteration, hp, hne, hok]
      · have hfin : (env.unmarshal (TrimPrefix line dataPrefix)
            (poolGet s.pool).1).obj.Finished = false := by
          simpa [decodesFinished, hp, hne, hok] using h
        simp [iteration, hp, hne, hok, hw, hfin, buildMsg_keeps_finished]
  · simp [iteration, hp]

/-! ## Lemmas on the loop -/

theorem runLines_append (env : Env) (model : String) (w : Writer) (s : LoopState)
    (pre post : List (List Char)) :
    runLines env model w s (pre ++ post) =
      match runLines env model w s pre with
      | .next s1 => runLines env model w s1 post
      | .ret s1 err => .ret s1 err := by
  induction pre generalizing s with
  | nil => rfl
  | cons l ls ih =>
    simp only [List.cons_append, runLines]
    cases iteration env model w s l with
    | next s1 => exact ih s1
    | ret s1 err => rfl

/-- A run that reaches the end of the lines has appended nothing but non-terminal
chunks. -/
theorem runLines_next_written (env : Env) (model : String) (w : Writer)
    (lines : List (List Char)) (s s1 : LoopState)
    (h : runLines env model w s lines = .next s1) :
    ∃ extra, s1.written = s.written ++ extra ∧ ∀ f ∈ extra, NonTerminal f := by
  induction lines generalizing s with
  | nil =>
    simp only [runLines, Outcome.next.injEq] at h
    subst h; exact ⟨[], by simp, by simp⟩
  | cons l ls ih =>
    simp only [runLines] at h
    cases hi : iteration env model w s l with
    | ret s2 err => rw [hi] at h; cases h
    | next s2 =>
      rw [hi] at h
      obtain ⟨x1, e1, n1⟩ := iteration_next_written env model w s s2 l hi
      obtain ⟨x2, e2, n2⟩ := ih s2 h
      refine ⟨x1 ++ x2, by rw [e2, e1, List.append_assoc], ?_⟩
      intro f hf
      rcases List.mem_append.1 hf with hf | hf
      · exact n1 f hf
      · exact n2 f hf

/-- A run that returns has appended non-terminal chunks and then nothing, or the terminal
chunk, or the terminal chunk and the sentinel. -/
theorem runLines_ret_written (env : Env) (model : String) (w : Writer)
    (lines : List (List Char)) (s s1 : LoopState) (err : Option Error)
    (h : runLines env model w s lines = .ret s1 err) :
    ∃ extra tail, s1.written = s.written ++ extra ++ tail ∧ (∀ f ∈ extra, NonTerminal f) ∧
      (tail = [] ∨ tail = [Frame.chunk (terminalChunk env model)] ∨
        tail = [Frame.chunk (terminalChunk env model), Frame.done]) := by
  induction lines generalizing s with
  | nil => simp [runLines] at h
  | cons l ls ih =>
    simp only [runLines] at h
    cases hi : iteration env model w s l with
    | ret s2 err2 =>
      rw [hi] at h
      simp only [Outcome.ret.injEq] at h
      obtain ⟨rfl, rfl⟩ := h
      rcases iteration_ret_written env model w s s2 err2 l hi with e | e | e
      · exact ⟨[], [], by simp [e], by simp, Or.inl rfl⟩
      · exact ⟨[], _, by rw [e]; simp, by simp, Or.inr (Or.inl rfl)⟩
      · exact ⟨[], _, by rw [e]; simp, by simp, Or.inr (Or.inr rfl)⟩
    | next s2 =>
      rw [hi] at h
      obtain ⟨x1, e1, n1⟩ := iteration_next_written env model w s s2 l hi
      obtain ⟨x2, tail, e2, n2, ht⟩ := ih s2 h
      refine ⟨x1 ++ x2, tail, by rw [e2, e1]; simp, ?_, ht⟩
      intro f hf
      rcases List.mem_append.1 hf with hf | hf
      · exact n1 f hf
      · exact n2 f hf

/-- When some pass decodes a finished event, on a destination that accepts the writes,
the run returns nil there, having appended non-terminal chunks, the terminal chunk and
the sentinel; the lines that follow are not looked at. -/
theorem runLines_of_finishedDecoded (env : Env) (model : String)
    (lines : List (List Char)) (s : LoopState)
    (h : finishedDecoded env model Writer.healthy s lines = true) :
    ∃ s1 extra, runLines env model Writer.healthy s lines = .ret s1 none ∧
      s1.written = s.written ++ extra ++ [Frame.chunk (terminalChunk env model), Frame.done] ∧
      (∀ f ∈ extra, NonTerminal f) ∧
      ∀ more, runLines env model Writer.healthy s (lines ++ more) = .ret s1 none := by
  induction lines generalizing s with
  | nil => simp [finishedDecoded] at h
  | cons l ls ih =>
    by_cases hd : decodesFinished env s l = true
    · have hi := iteration_of_decodesFinished env model Writer.healthy s l hd rfl rfl
      refine ⟨{ thinkFlag := s.thinkFlag, pool := (poolGet s.pool).2,
                written := s.written ++ [Frame.chunk (terminalChunk env model), Frame.done],
                calls := s.calls + 2 }, [], ?_, by simp, by simp, fun more => ?_⟩
      · simp only [runLines, hi]
      · simp only [List.cons_append, runLines, hi]
    · have hd1 : decodesFinished env s l = false := by simpa using hd
      obtain ⟨s2, hi⟩ := iteration_of_not_decodesFinished env model Writer.healthy s l hd1 rfl
      simp only [finishedDecoded, hd1, hi, Bool.false_or] at h
      obtain ⟨x1, e1, n1⟩ := iteration_next_written env model Writer.healthy s s2 l hi
      obtain ⟨s1, x2, hr, e2, n2, hm⟩ := ih s2 h
      refine ⟨s1, x1 ++ x2, by simp [runLines, hi, hr], by rw [e2, e1]; simp, ?_,
        fun more => ?_⟩
      · intro f hf
        rcases List.mem_append.1 hf with hf | hf
        · exact n1 f hf
        · exact n2 f hf
      · simp only [List.cons_append, runLines, hi]
        exact hm more

/-- When no pass decodes a finished event, on a destination that accepts the writes, the
run reaches the end of the lines. -/
theorem runLines_of_not_finishedDecoded (env : Env) (model : String)
    (lines : List (List Char)) (s : LoopState)
    (h : finishedDecoded env model Writer.healthy s lines = false) :
    ∃ s1, runLines env model Writer.healthy s lines = .next s1 := by
  induction lines generalizing s with
  | nil => exact ⟨s, rfl⟩
  | cons l ls ih =>
    simp only [finishedDecoded, Bool.or_eq_false_iff] at h
    obtain ⟨hd, h2⟩ := h
    obtain ⟨s2, hi⟩ := iteration_of_not_decodesFinished env model Writer.healthy s l hd rfl
    rw [hi] at h2
    obtain ⟨s1, hr⟩ := ih s2 h2
    exact ⟨s1, by simp [runLines, hi, hr]⟩

theorem countP_nonTerminal (fs : List Frame) (h : ∀ f ∈ fs, NonTerminal f) :
    fs.countP Frame.isTerminal = 0 := by
  rw [List.countP_eq_zero]
  intro f hf
  simp [(h f hf).1]

theorem sameView_refl (s : LoopState) : SameView s s := ⟨rfl, rfl, rfl, rfl⟩

theorem outcomeSame_refl (a : Outcome) : OutcomeSame a a := by
  cases a with
  | next s => exact sameView_refl s
  | ret s e => exact ⟨rfl, rfl, rfl⟩

theorem iteration_sameView (env : Env) (model : String) (w : Writer) (s t : LoopState)
    (line : List Char) (h : SameView s t) :
    OutcomeSame (iteration env model w s line) (iteration env model w t line) := by
  obtain ⟨h1, h2, h3, h4⟩ := h
  by_cases hp : HasPrefix line dataPrefix = true
  · by_cases hne : TrimPrefix line dataPrefix = []
    · simp only [iteration, hp, hne, Bool.not_true, Bool.false_eq_true, if_false, if_true]
      exact ⟨h1, h2, h3, h4⟩
    · by_cases hok : (env.unmarshal (TrimPrefix line dataPrefix) (poolGet s.pool).1).failed
          = true
      · have hok1 := hok
        rw [h4] at hok1
        simp only [iteration, hp, hne, hok, hok1, Bool.not_true, Bool.false_eq_true, if_false,
          if_true]
        exact ⟨h1, h2, h3, by rw [h4]⟩
      · have hok1 := hok
        rw [h4] at hok1
        simp only [iteration, hp, hne, hok, hok1, Bool.not_true, Bool.false_eq_true, if_false]
        rw [← h1, ← h2, ← h3, ← h4]
        exact outcomeSame_refl _
  · simp only [iteration, hp, Bool.not_false, if_true]
    exact ⟨h1, h2, h3, h4⟩

theorem runLines_sameView (env : Env) (model : String) (w : Writer)
    (lines : List (List Char)) (s t : LoopState) (h : SameView s t) :
    OutcomeSame (runLines env model w s lines) (runLines env model w t lines) := by
  induction lines generalizing s t with
  | nil => exact h
  | cons l ls ih =>
    have hi := iteration_sameView env model w s t l h
    simp only [runLines]
    cases hs : iteration env model w s l with
    | next s1 =>
      cases ht : iteration env model w t l with
      | next t1 =>
        rw [hs, ht] at hi
        exact ih s1 t1 hi
      | ret t1 e1 => rw [hs, ht] at hi; exact hi.elim
    | ret s1 e =>
      cases ht : iteration env model w t l with
      | next t1 => rw [hs, ht] at hi; exact hi.elim
      | ret t1 e1 => rw [hs, ht] at hi; exact hi

/-- A line that does not begin with `"data: "` leaves the loop state as it is. -/
theorem iteration_no_prefix (env : Env) (model : String) (w : Writer) (s : LoopState)
    (line : List Char) (h : HasPrefix line dataPrefix = false) :
    iteration env model w s line = .next s := by
  simp [iteration, h]

/-- A data line whose payload the decoder rejects without touching the object leaves a
state that the loop body cannot tell from the one before. -/
theorem iteration_rejected (env : Env) (model : String) (w : Writer) (s : LoopState)
    (payload : List Char)
    (h : env.unmarshal (payload ++ ['\n']) (poolGet s.pool).1 =
      { obj := (poolGet s.pool).1, failed := true }) :
    ∃ s1, iteration env model w s (dataLine payload) = .next s1 ∧ SameView s1 s := by
  refine ⟨{ s with pool := poolPut (poolGet s.pool).1 (poolGet s.pool).2 }, ?_, rfl, rfl, rfl,
    ?_⟩
  · simp [iteration, hasPrefix_dataLine, trimPrefix_dataLine, h]
  · simp [poolGet, poolPut]

/-- Leaving out a line whose pass goes on in a state the loop body cannot tell from the
one before does not change the observable outcome of the run. -/
theorem runLines_skip (env : Env) (model : String) (w : Writer)
    (pre rest : List (List Char)) (line : List Char) (s : LoopState)
    (h : ∀ t, ∃ t1, iteration env model w t line = .next t1 ∧ SameView t1 t) :
    OutcomeSame (runLines env model w s (pre ++ line :: rest))
      (runLines env model w s (pre ++ rest)) := by
  rw [runLines_append, runLines_append]
  cases runLines env model w s pre with
  | ret s1 e => exact ⟨rfl, rfl, rfl⟩
  | next s1 =>
    obtain ⟨t1, hi, hv⟩ := h s1
    simp only [runLines, hi]
    exact runLines_sameView env model w rest t1 s1 hv

/-- A run of thinking and thinking-detail events from a state with `thinkFlag` set: one
chunk per event, and `thinkFlag` stays set. -/
theorem runLines_think (env : Env) (model : String) (evs : List (List Char × ThinkEvent))
    (hevs : ∀ pe ∈ evs, DecodesThink env pe.1 pe.2)
    (s : LoopState) (hp : CleanPool s.pool) (hflag : s.thinkFlag = true) :
    ∃ s1, (∀ rest, runLines env model Writer.healthy s
              (evs.map (fun pe => dataLine pe.1) ++ rest) =
            runLines env model Writer.healthy s1 rest) ∧
      s1.thinkFlag = true ∧
      s1.written = s.written ++
        evs.map (fun pe => Frame.chunk (contentChunk env model pe.2.content)) ∧
      CleanPool s1.pool := by
  induction evs generalizing s with
  | nil => exact ⟨s, fun rest => rfl, hflag, by simp, hp⟩
  | cons pe evs ih =>
    have hpe := hevs pe (by simp)
    obtain ⟨p, ev⟩ := pe
    have hstep : ∃ s1, iteration env model Writer.healthy s (dataLine p) = .next s1 ∧
        s1.thinkFlag = true ∧
        s1.written = s.written ++ [Frame.chunk (contentChunk env model ev.content)] ∧
        CleanPool s1.pool := by
      cases ev with
      | thinking =>
        obtain ⟨s1, e1, f1, w1, _, q1⟩ :=
          step_thinking env model Writer.healthy s p hp rfl hpe
        exact ⟨s1, e1, f1, w1, q1⟩
      | detail a =>
        obtain ⟨s1, e1, f1, w1, _, q1⟩ :=
          step_detail env model Writer.healthy s p a hp rfl hpe
        exact ⟨s1, e1, by rw [f1, hflag], w1, q1⟩
    obtain ⟨s1, e1, f1, w1, q1⟩ := hstep
    obtain ⟨s2, e2, f2, w2, q2⟩ := ih (fun x hx => hevs x (by simp [hx])) s1 q1 f1
    refine ⟨s2, fun rest => ?_, f2, ?_, q2⟩
    · simp only [List.map_cons, List.cons_append, runLines, e1]
      exact e2 rest
    · rw [w2, w1]; simp

/-! ## Lemmas on the marks of the emitted chunks -/

/-- A pass that goes on has appended the chunk of `passEmit`, if any, and has moved
`thinkFlag` as the mark of that chunk says. -/
theorem iteration_next_emit (env : Env) (model : String) (w : Writer)
    (s s1 : LoopState) (line : List Char)
    (h : iteration env model w s line = .next s1) :
    s1.written = s.written ++ (passEmit env model s line).toList.map Prod.snd ∧
    s1.thinkFlag = (match passEmit env model s line with
      | none => s.thinkFlag
      | some mf => flagStep s.thinkFlag mf.1) ∧
    (∀ f, passEmit env model s line = some (Mark.closed, f) → s.thinkFlag = true) ∧
    (∀ f, passEmit env model s line = some (Mark.plain, f) → s.thinkFlag = false) := by
  by_cases hp : HasPrefix line dataPrefix = true
  · by_cases hne : TrimPrefix line dataPrefix = []
    · simp only [iteration, hp, hne, Bool.not_true, Bool.false_eq_true, if_false, if_true,
        Outcome.next.injEq] at h
      subst h
      simp [passEmit, hp, hne]
    · by_cases hok : (env.unmarshal (TrimPrefix line dataPrefix) (poolGet s.pool).1).failed
          = true
      · simp only [iteration, hp, hne, hok, Bool.not_true, Bool.false_eq_true, if_false,
          if_true, Outcome.next.injEq] at h
        subst h
        simp [passEmit, hp, hne, hok]
      · cases hw : w s.calls with
        | some cause => simp [iteration, hp, hne, hok, hw] at h
        | none =>
          by_cases hfin : (env.unmarshal (TrimPrefix line dataPrefix)
              (poolGet s.pool).1).obj.Finished = true
          · simp [iteration, hp, hne, hok, hw, hfin, buildMsg_keeps_finished] at h
          · simp only [iteration, hp, hne, hok, hw, hfin, buildMsg_keeps_finished,
              Bool.not_true, Bool.false_eq_true, if_false, Outcome.next.injEq] at h
            subst h
            have hfin1 : (env.unmarshal (TrimPrefix line dataPrefix)
                (poolGet s.pool).1).obj.Finished = false := by simpa using hfin
            by_cases ht : (env.unmarshal (TrimPrefix line dataPrefix)
                (poolGet s.pool).1).obj.AgentStatus.Type_ = "thinking"
            · simp [passEmit, hp, hne, hok, hfin1, ht, flagStep,
                buildMsg_thinking env model s.thinkFlag _ hfin1 ht]
            · by_cases hd : (env.unmarshal (TrimPrefix line dataPrefix)
                  (poolGet s.pool).1).obj.AgentStatus.Type_ = "thinking_detail_stream"
              · simp [passEmit, hp, hne, hok, hfin1, ht, hd, flagStep,
                  buildMsg_detail env model s.thinkFlag _ hfin1 hd]
              · cases hflag : s.thinkFlag <;>
                  simp [passEmit, hp, hne, hok, hfin1, ht, hd, flagStep, hflag,
                    buildMsg_plain env model _ _ hfin1 ht hd]
  · simp only [iteration, hp, Bool.not_false, if_true, Outcome.next.injEq] at h
    subst h
    simp [passEmit, hp]

/-- The chunk of a pass marked as opening is the chunk `<think>`; the chunk of a pass
marked as closing has `</think>` in front of the text of the decoded object. -/
theorem passEmit_marks (env : Env) (model : String) (s : LoopState) (line : List Char)
    (f : Frame) :
    (passEmit env model s line = some (Mark.opened, f) →
      f = Frame.chunk (contentChunk env model "<think>")) ∧
    (passEmit env model s line = some (Mark.closed, f) →
      f = Frame.chunk (contentChunk env model ("</think>" ++
        (env.unmarshal (TrimPrefix line dataPrefix) (poolGet s.pool).1).obj.Text))) := by
  unfold passEmit
  split_ifs with h0 ht hd hf
  · simp only [Bool.and_eq_true, Bool.not_eq_true'] at h0
    refine ⟨fun h => ?_, fun h => by simp at h⟩
    simp only [Option.some.injEq, Prod.mk.injEq, true_and] at h
    rw [← h, buildMsg_thinking env model s.thinkFlag _ h0.2 ht]
  · exact ⟨fun h => by simp at h, fun h => by simp at h⟩
  · simp only [Bool.and_eq_true, Bool.not_eq_true'] at h0
    refine ⟨fun h => by simp at h, fun h => ?_⟩
    simp only [Option.some.injEq, Prod.mk.injEq, true_and] at h
    rw [← h, buildMsg_plain env model s.thinkFlag _ h0.2 ht hd, hf]
    simp
  · exact ⟨fun h => by simp at h, fun h => by simp at h⟩
  · exact ⟨fun h => by simp at h, fun h => by simp at h⟩

/-- On a destination that accepts the writes a pass returns only for a finished event,
and leaves `thinkFlag` as it was. -/
theorem iteration_ret_flag (env : Env) (model : String) (s s1 : LoopState)
    (err : Option Error) (line : List Char)
    (h : iteration env model Writer.healthy s line = .ret s1 err) :
    s1.thinkFlag = s.thinkFlag := by
  have hw : Writer.healthy s.calls = none := rfl
  by_cases hp : HasPrefix line dataPrefix = true
  · by_cases hne : TrimPrefix line dataPrefix = []
    · simp [iteration, hp, hne] at h
    · by_cases hok : (env.unmarshal (TrimPrefix line dataPrefix) (poolGet s.pool).1).failed
          = true
      · simp [iteration, hp, hne, hok] at h
      · by_cases hfin : (env.unmarshal (TrimPrefix line dataPrefix)
            (poolGet s.pool).1).obj.Finished = true
        · simp only [iteration, hp, hne, hok, hw, hfin, buildMsg_keeps_finished,
            buildMsg_finished, Bool.not_true, Bool.false_eq_true, if_false, if_true,
            Outcome.ret.injEq] at h
          obtain ⟨h, _⟩ := h
          subst h
          rfl
        · simp [iteration, hp, hne, hok, hw, hfin, buildMsg_keeps_finished] at h
  · simp [iteration, hp] at h

/-- A run that reaches the end of the lines has written the chunks of its trace, and its
`thinkFlag` is the think state after the marks of the trace. -/
theorem trace_next (env : Env) (model : String) (w : Writer) (lines : List (List Char))
    (s s1 : LoopState) (h : runLines env model w s lines = .next s1) :
    s1.written = s.written ++ (trace env model w s lines).map Prod.snd ∧
    s1.thinkFlag = ((trace env model w s lines).map Prod.fst).foldl flagStep s.thinkFlag := by
  induction lines generalizing s with
  | nil =>
    simp only [runLines, Outcome.next.injEq] at h
    subst h
    simp [trace]
  | cons l ls ih =>
    simp only [runLines] at h
    cases hi : iteration env model w s l with
    | ret s2 err => rw [hi] at h; cases h
    | next s2 =>
      rw [hi] at h
      obtain ⟨e1, f1, _, _⟩ := iteration_next_emit env model w s s2 l hi
      obtain ⟨e2, f2⟩ := ih s2 h
      simp only [trace, hi, List.map_append, List.foldl_append]
      refine ⟨by rw [e2, e1, List.append_assoc], ?_⟩
      rw [f2, f1]
      cases passEmit env model s l <;> rfl

/-- A run that returns has written the chunks of its trace and then nothing, or the
terminal chunk, or the terminal chunk and the sentinel. -/
theorem trace_ret (env : Env) (model : String) (w : Writer) (lines : List (List Char))
    (s s1 : LoopState) (err : Option Error)
    (h : runLines env model w s lines = .ret s1 err) :
    ∃ tail, s1.written = s.written ++ (trace env model w s lines).map Prod.snd ++ tail ∧
      (tail = [] ∨ tail = [Frame.chunk (terminalChunk env model)] ∨
        tail = [Frame.chunk (terminalChunk env model), Frame.done]) := by
  induction lines generalizing s with
  | nil => simp [runLines] at h
  | cons l ls ih =>
    simp only [runLines] at h
    cases hi : iteration env model w s l with
    | ret s2 err2 =>
      rw [hi] at h
      simp only [Outcome.ret.injEq] at h
      obtain ⟨rfl, rfl⟩ := h
      simp only [trace, hi, List.map_nil, List.append_nil]
      rcases iteration_ret_written env model w s s2 err2 l hi with e | e | e
      · exact ⟨[], by simp [e], Or.inl rfl⟩
      · exact ⟨_, e, Or.inr (Or.inl rfl)⟩
      · exact ⟨_, e, Or.inr (Or.inr rfl)⟩
    | next s2 =>
      rw [hi] at h
      obtain ⟨e1, _, _, _⟩ := iteration_next_emit env model w s s2 l hi
      obtain ⟨tail, e2, ht⟩ := ih s2 h
      refine ⟨tail, ?_, ht⟩
      simp only [trace, hi, List.map_append]
      rw [e2, e1]
      simp

/-- On a destination that accepts the writes, the `thinkFlag` with which a run returns
is the think state after the marks of its trace. -/
theorem trace_ret_flag (env : Env) (model : String) (lines : List (List Char))
    (s s1 : LoopState) (err : Option Error)
    (h : runLines env model Writer.healthy s lines = .ret s1 err) :
    s1.thinkFlag =
      ((trace env model Writer.healthy s lines).map Prod.fst).foldl flagStep s.thinkFlag := by
  induction lines generalizing s with
  | nil => simp [runLines] at h
  | cons l ls ih =>
    simp only [runLines] at h
    cases hi : iteration env model Writer.healthy s l with
    | ret s2 err2 =>
      rw [hi] at h
      simp only [Outcome.ret.injEq] at h
      obtain ⟨rfl, rfl⟩ := h
      simp only [trace, hi, List.map_nil, List.foldl_nil]
      exact iteration_ret_flag env model s s2 err2 l hi
    | next s2 =>
      rw [hi] at h
      obtain ⟨_, f1, _, _⟩ := iteration_next_emit env model Writer.healthy s s2 l hi
      have f2 := ih s2 h
      simp only [trace, hi, List.map_append, List.foldl_append]
      rw [f2, f1]
      cases passEmit env model s l <;> rfl

/-- The marks of a trace can arise from the think state in which the run starts. -/
theorem trace_balanced (env : Env) (model : String) (w : Writer) (lines : List (List Char))
    (s : LoopState) : Balanced s.thinkFlag ((trace env model w s lines).map Prod.fst) := by
  induction lines generalizing s with
  | nil => simp [trace, Balanced]
  | cons l ls ih =>
    simp only [trace]
    cases hi : iteration env model w s l with
    | ret s2 err => simp [Balanced]
    | next s2 =>
      obtain ⟨_, f1, hc, hpl⟩ := iteration_next_emit env model w s s2 l hi
      have ih2 := ih s2
      cases he : passEmit env model s l with
      | none =>
        rw [he] at f1
        simp only at f1
        rw [f1] at ih2
        simpa using ih2
      | some mf =>
        rw [he] at f1
        simp only at f1
        rw [f1] at ih2
        obtain ⟨m, f⟩ := mf
        simp only [Option.toList, List.singleton_append, List.map_cons, Balanced]
        exact ⟨fun hm => hc f (by rw [he, hm]), fun hm => hpl f (by rw [he, hm]), ih2⟩

/-- The chunks of a trace marked as opening are the chunk `<think>`; those marked as
closing begin with `</think>`. -/
theorem trace_marks (env : Env) (model : String) (w : Writer) (lines : List (List Char))
    (s : LoopState) :
    ∀ mf ∈ trace env model w s lines,
      (mf.1 = Mark.opened → mf.2 = Frame.chunk (contentChunk env model "<think>")) ∧
      (mf.1 = Mark.closed →
        ∃ t, mf.2 = Frame.chunk (contentChunk env model ("</think>" ++ t))) := by
  induction lines generalizing s with
  | nil => intro mf hmf; simp [trace] at hmf
  | cons l ls ih =>
    intro mf hmf
    simp only [trace] at hmf
    cases hi : iteration env model w s l with
    | ret s2 err => rw [hi] at hmf; simp at hmf
    | next s2 =>
      rw [hi] at hmf
      simp only [List.mem_append] at hmf
      rcases hmf with hmf | hmf
      · cases he : passEmit env model s l with
        | none => rw [he] at hmf; simp at hmf
        | some x =>
          rw [he] at hmf
          simp only [Option.toList, List.mem_singleton] at hmf
          subst hmf
          obtain ⟨m, f⟩ := mf
          have hm := passEmit_marks env model s l f
          refine ⟨fun h => ?_, fun h => ?_⟩
          · simp only at h
            subst h
            exact hm.1 he
          · simp only at h
            subst h
            exact ⟨_, hm.2 he⟩
      · exact ih s2 mf hmf

/-- In every prefix of a balanced sequence of marks, the closing marks are at most the
opening marks, plus one when the sequence starts in state Thinking. -/
theorem balanced_count (ms : List Mark) (b : Bool) (n : Nat) (h : Balanced b ms) :
    (ms.take n).count Mark.closed ≤
      (ms.take n).count Mark.opened + (if b then 1 else 0) := by
  induction ms generalizing b n with
  | nil => simp
  | cons m ms ih =>
    cases n with
    | zero => simp
    | succ n =>
      obtain ⟨hc, hp, hb⟩ := h
      have ih1 := ih (flagStep b m) n hb
      cases m with
      | opened =>
        simp only [flagStep, if_true] at ih1
        simp only [List.take_succ_cons, List.count_cons, beq_self_eq_true, if_true]
        have : (Mark.opened == Mark.closed) = false := by decide
        simp only [this, Bool.false_eq_true, if_false]
        omega
      | detail =>
        simp only [flagStep] at ih1
        have h1 : (Mark.detail == Mark.closed) = false := by decide
        have h2 : (Mark.detail == Mark.opened) = false := by decide
        simp only [List.take_succ_cons, List.count_cons, h1, h2, Bool.false_eq_true, if_false]
        exact ih1
      | closed =>
        have hb1 : b = true := hc rfl
        simp only [flagStep, Bool.false_eq_true, if_false] at ih1
        have h2 : (Mark.closed == Mark.opened) = false := by decide
        simp only [List.take_succ_cons, List.count_cons, beq_self_eq_true, if_true, h2,
          Bool.false_eq_true, if_false, hb1]
        omega
      | plain =>
        simp only [flagStep, Bool.false_eq_true, if_false] at ih1
        have h1 : (Mark.plain == Mark.closed) = false := by decide
        have h2 : (Mark.plain == Mark.opened) = false := by decide
        simp only [List.take_succ_cons, List.count_cons, h1, h2, Bool.false_eq_true, if_false]
        omega

/-- The think state after a sequence of marks is Thinking exactly when a thinking event
has been processed since the last plain-text event, or the state was Thinking at the
start and no plain-text event has been processed. -/
theorem foldl_flagStep (ms : List Mark) (b : Bool) :
    ms.foldl flagStep b = true ↔
      ThinkingOpen ms ∨ (b = true ∧ ∀ m ∈ ms, m.isPlainText = false) := by
  induction ms using List.reverseRecOn with
  | nil =>
    simp only [List.foldl_nil, List.not_mem_nil, false_implies, implies_true, and_true]
    constructor
    · exact fun h => Or.inr h
    · rintro (⟨pre, post, h, _⟩ | h)
      · simp at h
      · exact h
  | append_singleton init m ih =>
    rw [List.foldl_append, List.foldl_cons, List.foldl_nil]
    have hsplit : ∀ pre post, init ++ [m] = pre ++ Mark.opened :: post →
        (post = [] ∧ m = Mark.opened ∧ init = pre) ∨
        (∃ post1, post = post1 ++ [m] ∧ init = pre ++ Mark.opened :: post1) := by
      intro pre post h
      rcases List.eq_nil_or_concat post with rfl | ⟨post1, x, rfl⟩
      · have h1 : init ++ [m] = pre ++ [Mark.opened] := h
        obtain ⟨h2, h3⟩ := List.append_inj' h1 rfl
        exact Or.inl ⟨rfl, by simpa using h3, h2⟩
      · have h1 : init ++ [m] = (pre ++ Mark.opened :: post1) ++ [x] := by
          rw [h]; simp
        obtain ⟨h2, h3⟩ := List.append_inj' h1 rfl
        have hx : m = x := by simpa using h3
        subst hx
        exact Or.inr ⟨post1, by simp, h2⟩
    cases m with
    | opened =>
      simp only [flagStep, true_iff]
      exact Or.inl ⟨init, [], rfl, by simp⟩
    | detail =>
      simp only [flagStep]
      rw [ih]
      constructor
      · rintro (⟨pre, post, h, hp⟩ | ⟨hb, hp⟩)
        · refine Or.inl ⟨pre, post ++ [Mark.detail], by rw [h]; simp, ?_⟩
          intro x hx
          rcases List.mem_append.1 hx with hx | hx
          · exact hp x hx
          · simp only [List.mem_singleton] at hx
            subst hx; rfl
        · refine Or.inr ⟨hb, ?_⟩
          intro x hx
          rcases List.mem_append.1 hx with hx | hx
          · exact hp x hx
          · simp only [List.mem_singleton] at hx
            subst hx; rfl
      · rintro (⟨pre, post, h, hp⟩ | ⟨hb, hp⟩)
        · rcases hsplit pre post h with ⟨_, hm, _⟩ | ⟨post1, rfl, hi⟩
          · cases hm
          · exact Or.inl ⟨pre, post1, hi, fun x hx => hp x (by simp [hx])⟩
        · exact Or.inr ⟨hb, fun x hx => hp x (by simp [hx])⟩
    | closed =>
      simp only [flagStep, Bool.false_eq_true, false_iff, not_or]
      constructor
      · rintro ⟨pre, post, h, hp⟩
        rcases hsplit pre post h with ⟨_, hm, _⟩ | ⟨post1, rfl, _⟩
        · cases hm
        · have := hp Mark.closed (by simp)
          simp [Mark.isPlainText] at this
      · rintro ⟨_, hp⟩
        have := hp Mark.closed (by simp)
        simp [Mark.isPlainText] at this
    | plain =>
      simp only [flagStep, Bool.false_eq_true, false_iff, not_or]
      constructor
      · rintro ⟨pre, post, h, hp⟩
        rcases hsplit pre post h with ⟨_, hm, _⟩ | ⟨post1, rfl, _⟩
        · cases hm
        · have := hp Mark.plain (by simp)
          simp [Mark.isPlainText] at this
      · rintro ⟨_, hp⟩
        have := hp Mark.plain (by simp)
        simp [Mark.isPlainText] at this

/-- The opening marks of a list of marked chunks are at most its chunks `<think>`, when
every chunk marked as opening is the chunk `<think>`. -/
theorem count_opened_le (env : Env) (model : String) (l : List (Mark × Frame))
    (h : ∀ mf ∈ l, mf.1 = Mark.opened →
      mf.2 = Frame.chunk (contentChunk env model "<think>")) :
    (l.map Prod.fst).count Mark.opened ≤
      (l.map Prod.snd).count (Frame.chunk (contentChunk env model "<think>")) := by
  induction l with
  | nil => simp
  | cons mf l ih =>
    have ih1 := ih (fun x hx => h x (by simp [hx]))
    have h1 := h mf (by simp)
    simp only [List.map_cons, List.count_cons]
    by_cases hm : mf.1 = Mark.opened
    · simp only [hm, h1 hm, beq_self_eq_true, if_true]
      omega
    · have : (mf.1 == Mark.opened) = false := by simpa using hm
      simp only [this, Bool.false_eq_true, if_false]
      split_ifs <;> omega

/-! ## Lemmas on the decoded events -/

/-- The switch builds, for an object that is not finished, the content chunk of the
table. -/
theorem buildMsg_eventContent (env : Env) (model : String) (flag : Bool) (o : SSEData)
    (h : o.Finished = false) :
    (buildMsg env model flag o).1 = contentChunk env model (eventContent flag o) := by
  by_cases ht : o.AgentStatus.Type_ = "thinking"
  · simp [buildMsg_thinking env model flag o h ht, eventContent, ht]
  · by_cases hd : o.AgentStatus.Type_ = "thinking_detail_stream"
    · simp [buildMsg_detail env model flag o h hd, eventContent, ht, hd]
    · cases flag <;> simp [buildMsg_plain env model _ o h ht hd, eventContent, ht, hd]

/-- The chunk of a pass is the content chunk of the table for the event the pass
decodes. -/
theorem passEmit_frame (env : Env) (model : String) (s : LoopState) (line : List Char) :
    (passEmit env model s line).toList.map Prod.snd =
      (passEvent env s line).toList.map
        (fun bo => Frame.chunk (contentChunk env model (eventContent bo.1 bo.2))) := by
  by_cases h0 : (HasPrefix line dataPrefix && (TrimPrefix line dataPrefix != []) &&
      !(env.unmarshal (TrimPrefix line dataPrefix) (poolGet s.pool).1).failed &&
      !(env.unmarshal (TrimPrefix line dataPrefix) (poolGet s.pool).1).obj.Finished) = true
  · have hf : (env.unmarshal (TrimPrefix line dataPrefix)
        (poolGet s.pool).1).obj.Finished = false := by
      simp only [Bool.and_eq_true, Bool.not_eq_true'] at h0
      exact h0.2
    unfold passEmit passEvent
    rw [if_pos h0, if_pos h0]
    simp [buildMsg_eventContent env model s.thinkFlag _ hf]
  · unfold passEmit passEvent
    rw [if_neg h0, if_neg h0]
    rfl

/-- The chunks of the trace of a run are the content chunks of the table for the events
the run decodes. -/
theorem trace_frames_events (env : Env) (model : String) (w : Writer)
    (lines : List (List Char)) (s : LoopState) :
    (trace env model w s lines).map Prod.snd =
      (events env model w s lines).map
        (fun bo => Frame.chunk (contentChunk env model (eventContent bo.1 bo.2))) := by
  induction lines generalizing s with
  | nil => rfl
  | cons l ls ih =>
    simp only [trace, events]
    cases iteration env model w s l with
    | ret s2 err => rfl
    | next s2 =>
      simp only [List.map_append, ih s2]
      rw [passEmit_frame]

/-! ## Lemmas on HandleNonStreamingResponse -/

theorem aggregateLine_eq (env : Env) (content : String) (line : List Char)
    (hl : IsLine line) :
    aggregateLine env content line =
      match decodedEvent env line with
      | none => (content, false)
      | some ev => (content ++ ev.Text, ev.Finished) := by
  by_cases hp : HasPrefix line dataPrefix = true
  · have hne := trimPrefix_ne_nil line hl hp
    have hd := trimPrefix_eq_drop line hp
    simp only [aggregateLine, decodedEvent, hp, Bool.not_true, Bool.false_eq_true, if_false,
      if_true, if_neg hne]
    rw [hd]
    by_cases hf : (env.unmarshal (line.drop dataPrefix.length) SSEData.zero).failed = true
    · simp [hf]
    · simp [hf]
  · simp [aggregateLine, decodedEvent, hp]

theorem aggregateLines_content (env : Env) (lines : List (List Char))
    (hl : ∀ l ∈ lines, IsLine l) (content : String) :
    (aggregateLines env content lines).1 = content ++ aggregatedContent env lines := by
  induction lines generalizing content with
  | nil =>
    apply String.ext
    simp [aggregateLines, aggregatedContent, uptoFinished, String.join_eq]
  | cons l ls ih =>
    have hl1 := hl l (by simp)
    have ih1 := ih (fun x hx => hl x (by simp [hx]))
    simp only [aggregateLines, aggregateLine_eq env content l hl1]
    cases hd : decodedEvent env l with
    | none =>
      simp only [ih1, aggregatedContent, List.filterMap_cons, hd]
    | some ev =>
      cases hf : ev.Finished with
      | true =>
        simp [aggregatedContent, List.filterMap_cons, hd, uptoFinished, hf,
          string_join_cons]
        apply String.ext
        simp [String.join_eq]
      | false =>
        simp only [ih1, aggregatedContent, List.filterMap_cons, hd, uptoFinished, hf,
          List.map_cons, string_join_cons, String.append_assoc]
        simp [string_join_cons]

theorem handleNonStreaming_eof (env : Env) (model : String) (data : List Char) :
    HandleNonStreamingResponse env model { data := data, err := ReadErr.EOF } =
      (some (aggregatedResponse env (aggregateLines env "" (splitLines data).1).1), none) := by
  simp only [HandleNonStreamingResponse, aggregatedResponse]
  split <;> simp_all

theorem aggregateLine_dataLine (env : Env) (content : String) (payload : List Char)
    (hok : (env.unmarshal (payload ++ ['\n']) SSEData.zero).failed = false) :
    aggregateLine env content (dataLine payload) =
      (content ++ (env.unmarshal (payload ++ ['\n']) SSEData.zero).obj.Text,
       (env.unmarshal (payload ++ ['\n']) SSEData.zero).obj.Finished) := by
  simp [aggregateLine, hasPrefix_dataLine, trimPrefix_dataLine, hok]

theorem uptoFinished_append_finished (evs post : List SSEData) (ev : SSEData)
    (hev : ev.Finished = true) (hpre : ∀ x ∈ evs, x.Finished = false) :
    uptoFinished (evs ++ ev :: post) = evs ++ [ev] := by
  induction evs with
  | nil => simp [uptoFinished, hev]
  | cons x xs ih =>
    have hx := hpre x (by simp)
    simp [uptoFinished, hx, ih (fun y hy => hpre y (by simp [hy]))]

/-- Leaving out a line that adds nothing to the content and does not end the loop does
not change the outcome of the aggregating loop. -/
theorem aggregateLines_skip (env : Env) (pre rest : List (List Char)) (line : List Char)
    (h : ∀ c, aggregateLine env c line = (c, false)) (content : String) :
    aggregateLines env content (pre ++ line :: rest) =
      aggregateLines env content (pre ++ rest) := by
  induction pre generalizing content with
  | nil => simp [aggregateLines, h]
  | cons l ls ih =>
    simp only [List.cons_append, aggregateLines]
    cases hl : aggregateLine env content l with
    | mk c b =>
      cases b with
      | true => rfl
      | false => exact ih c

theorem aggregateLine_no_prefix (env : Env) (content : String) (line : List Char)
    (h : HasPrefix line dataPrefix = false) : aggregateLine env content line = (content, false) := by
  simp [aggregateLine, h]

theorem aggregateLine_rejected (env : Env) (content : String) (payload : List Char)
    (h : (env.unmarshal (payload ++ ['\n']) SSEData.zero).failed = true) :
    aggregateLine env content (dataLine payload) = (content, false) := by
  simp [aggregateLine, hasPrefix_dataLine, trimPrefix_dataLine, h]

/-- The observable part of the result of `StreamMonicaSSEToClient` is determined by the
observable outcome of the loop and the error of the reader. -/
theorem stream_of_outcomeSame (env : Env) (pool : List SSEData) (model : String)
    (w : Writer) (d1 d2 : List Char) (e : ReadErr)
    (h : OutcomeSame (runLines env model w (initialState pool) (splitLines d1).1)
      (runLines env model w (initialState pool) (splitLines d2).1)) :
    (StreamMonicaSSEToClient env pool model w { data := d1, err := e }).written =
      (StreamMonicaSSEToClient env pool model w { data := d2, err := e }).written ∧
    (StreamMonicaSSEToClient env pool model w { data := d1, err := e }).thinkFlag =
      (StreamMonicaSSEToClient env pool model w { data := d2, err := e }).thinkFlag ∧
    (StreamMonicaSSEToClient env pool model w { data := d1, err := e }).err =
      (StreamMonicaSSEToClient env pool model w { data := d2, err := e }).err := by
  simp only [StreamMonicaSSEToClient]
  cases h1 : runLines env model w (initialState pool) (splitLines d1).1 with
  | next s1 =>
    cases h2 : runLines env model w (initialState pool) (splitLines d2).1 with
    | next s2 =>
      rw [h1, h2] at h
      obtain ⟨a, b, _, _⟩ := h
      cases e <;> exact ⟨b, a, rfl⟩
    | ret s2 e2 => rw [h1, h2] at h; exact h.elim
  | ret s1 e1 =>
    cases h2 : runLines env model w (initialState pool) (splitLines d2).1 with
    | next s2 => rw [h1, h2] at h; exact h.elim
    | ret s2 e2 =>
      rw [h1, h2] at h
      obtain ⟨a, b, c⟩ := h
      exact ⟨b, c, a⟩

/-- Leaving out a data line whose payload the decoder rejects without touching the object
decoded into changes neither the frames written, nor `thinkFlag`, nor the error of
`StreamMonicaSSEToClient`. -/
theorem rejected_line_untouched (env : Env) (pool : List SSEData) (model : String)
    (w : Writer) (pre : List (List Char)) (payload post : List Char) (e : ReadErr)
    (hpre : ∀ l ∈ pre, IsLine l) (hn : '\n' ∉ payload)
    (hrej : ∀ o, env.unmarshal (payload ++ ['\n']) o = { obj := o, failed := true }) :
    (StreamMonicaSSEToClient env pool model w
        { data := pre.flatten ++ (dataLine payload ++ post), err := e }).written =
      (StreamMonicaSSEToClient env pool model w
        { data := pre.flatten ++ post, err := e }).written ∧
    (StreamMonicaSSEToClient env pool model w
        { data := pre.flatten ++ (dataLine payload ++ post), err := e }).thinkFlag =
      (StreamMonicaSSEToClient env pool model w
        { data := pre.flatten ++ post, err := e }).thinkFlag ∧
    (StreamMonicaSSEToClient env pool model w
        { data := pre.flatten ++ (dataLine payload ++ post), err := e }).err =
      (StreamMonicaSSEToClient env pool model w
        { data := pre.flatten ++ post, err := e }).err := by
  have hs1 : splitLines (pre.flatten ++ (dataLine payload ++ post)) =
      (pre ++ dataLine payload :: (splitLines post).1, (splitLines post).2) := by
    rw [splitLines_lines pre _ hpre, splitLines_dataLine payload post hn]
  have hs0 := splitLines_lines pre post hpre
  have hout := runLines_skip env model w pre (splitLines post).1 (dataLine payload)
    (initialState pool) (fun t => iteration_rejected env model w t payload (hrej _))
  exact stream_of_outcomeSame env pool model w _ _ e (by rw [hs1, hs0]; exact hout)

/-- Leaving out a data line whose payload the decoder rejects does not change the result
of `HandleNonStreamingResponse`, whatever the failed call did to its object. -/
theorem rejected_line_nonstreaming (env : Env) (model : String)
    (pre : List (List Char)) (payload post : List Char) (e : ReadErr)
    (hpre : ∀ l ∈ pre, IsLine l) (hn : '\n' ∉ payload)
    (hrej : (env.unmarshal (payload ++ ['\n']) SSEData.zero).failed = true) :
    HandleNonStreamingResponse env model
        { data := pre.flatten ++ (dataLine payload ++ post), err := e } =
      HandleNonStreamingResponse env model { data := pre.flatten ++ post, err := e } := by
  have hs1 : splitLines (pre.flatten ++ (dataLine payload ++ post)) =
      (pre ++ dataLine payload :: (splitLines post).1, (splitLines post).2) := by
    rw [splitLines_lines pre _ hpre, splitLines_dataLine payload post hn]
  have hs0 := splitLines_lines pre post hpre
  simp only [HandleNonStreamingResponse, hs1, hs0,
    aggregateLines_skip env pre _ (dataLine payload)
      (fun c => aggregateLine_rejected env c payload hrej)]

/-- A pass whose chunk the destination rejects returns the write error and appends
nothing: the sentinel is not attempted. -/
theorem iteration_write_failed (env : Env) (model : String) (w : Writer) (s : LoopState)
    (payload : List Char) (cause : String)
    (hok : (env.unmarshal (payload ++ ['\n']) (poolGet s.pool).1).failed = false)
    (hw : w s.calls = some cause) :
    ∃ s1, iteration env model w s (dataLine payload) = .ret s1 (some (.writeError cause)) ∧
      s1.written = s.written := by
  simp [iteration, hasPrefix_dataLine, trimPrefix_dataLine, hok, hw]

/-- When no decoded event is finished, the aggregating loop is not left with `break`. -/
theorem aggregateLines_not_finished (env : Env) (lines : List (List Char))
    (hl : ∀ l ∈ lines, IsLine l)
    (h : ∀ ev ∈ lines.filterMap (decodedEvent env), ev.Finished = false) (content : String) :
    (aggregateLines env content lines).2 = false := by
  induction lines generalizing content with
  | nil => rfl
  | cons l ls ih =>
    have hl1 := hl l (by simp)
    simp only [aggregateLines, aggregateLine_eq env content l hl1]
    cases hd : decodedEvent env l with
    | none =>
      simp only
      exact ih (fun x hx => hl x (by simp [hx]))
        (fun ev hev => h ev (by simp [List.filterMap_cons, hd, hev])) content
    | some ev =>
      have hf : ev.Finished = false := h ev (by simp [List.filterMap_cons, hd])
      simp only [hf]
      exact ih (fun x hx => hl x (by simp [hx]))
        (fun ev1 hev => h ev1 (by simp [List.filterMap_cons, hd, hev])) _

theorem aggregateLines_env (env : Env) (chatId : String) (now : Int) (fingerprint : String)
    (lines : List (List Char)) (content : String) :
    aggregateLines
        { env with chatId := chatId, now := now, fingerprint := fingerprint } content lines =
      aggregateLines env content lines := by
  induction lines generalizing content with
  | nil => rfl
  | cons l ls ih =>
    simp only [aggregateLines]
    have h : aggregateLine
        { env with chatId := chatId, now := now, fingerprint := fingerprint } content l =
        aggregateLine env content l := rfl
    rw [h]
    cases aggregateLine env content l with
    | mk c b =>
      cases b with
      | true => rfl
      | false => exact ih c

/-! ## Claims -/

/-- C1: when the stream is the four newline-terminated data lines that decode to a
thinking event, a thinking-detail event with reasoning detail `a`, a plain-text event
with text `b` and a finished event, `StreamMonicaSSEToClient`, started with `thinkFlag`
unset on a destination that accepts every write, writes exactly five frames in this
order: the chunk `<think>`, the chunk `a`, the chunk `</think>` followed by `b`, the
terminal chunk (finish reason stop, empty content) and the sentinel, whose bytes are
`data: [DONE]` and two newlines; and it returns nil. -/
theorem stream_think_detail_text_finished (env : Env) (pool : List SSEData)
    (model a b : String) (p1 p2 p3 p4 : List Char) (e : ReadErr)
    (marshal : ChatCompletionStreamResponse → String)
    (hn1 : '\n' ∉ p1) (hn2 : '\n' ∉ p2) (hn3 : '\n' ∉ p3) (hn4 : '\n' ∉ p4)
    (hpool : CleanPool pool)
    (h1 : DecodesTo env p1 (fun o => o.Finished = false ∧ o.AgentStatus.Type_ = "thinking"))
    (h2 : DecodesTo env p2
      (fun o => o.Finished = false ∧ o.AgentStatus.Type_ = "thinking_detail_stream" ∧
        o.AgentStatus.Metadata.ReasoningDetail = a))
    (h3 : DecodesTo env p3
      (fun o => o.Finished = false ∧ o.AgentStatus.Type_ = "" ∧ o.Text = b))
    (h4 : DecodesTo env p4 (fun o => o.Finished = true)) :
    (StreamMonicaSSEToClient env pool model Writer.healthy
        { data := dataLine p1 ++ (dataLine p2 ++ (dataLine p3 ++ dataLine p4)),
          err := e }).written =
      [Frame.chunk (contentChunk env model "<think>"),
       Frame.chunk (contentChunk env model a),
       Frame.chunk (contentChunk env model ("</think>" ++ b)),
       Frame.chunk (terminalChunk env model),
       Frame.done] ∧
    (StreamMonicaSSEToClient env pool model Writer.healthy
        { data := dataLine p1 ++ (dataLine p2 ++ (dataLine p3 ++ dataLine p4)),
          err := e }).err = none ∧
    Frame.wire marshal Frame.done = "data: [DONE]\n\n" ∧
    (terminalChunk env model).Choices.map (fun c => (c.FinishReason, c.Delta.Content)) =
      [("stop", "")] := by
  have hsplit : (splitLines (dataLine p1 ++ (dataLine p2 ++ (dataLine p3 ++ dataLine p4)))).1
      = [dataLine p1, dataLine p2, dataLine p3, dataLine p4] := by
    have h4s := splitLines_dataLine p4 [] hn4
    rw [List.append_nil] at h4s
    rw [splitLines_dataLine p1 _ hn1, splitLines_dataLine p2 _ hn2,
      splitLines_dataLine p3 _ hn3, h4s]
    simp [splitLines]
  obtain ⟨s1, e1, f1, w1, c1, q1⟩ := step_thinking env model Writer.healthy
    (initialState pool) p1 hpool rfl h1
  obtain ⟨s2, e2, f2, w2, c2, q2⟩ := step_detail env model Writer.healthy s1 p2 a q1 rfl h2
  obtain ⟨s3, e3, f3, w3, c3, q3⟩ := step_plain env model Writer.healthy s2 p3 b q2 rfl h3
  obtain ⟨s4, e4, f4, w4⟩ := step_finished env model Writer.healthy s3 p4 q3 rfl rfl h4
  have hrun : runLines env model Writer.healthy (initialState pool)
      [dataLine p1, dataLine p2, dataLine p3, dataLine p4] = .ret s4 none := by
    simp [runLines, e1, e2, e3, e4]
  have hw : s4.written = [Frame.chunk (contentChunk env model "<think>"),
      Frame.chunk (contentChunk env model a),
      Frame.chunk (contentChunk env model ("</think>" ++ b)),
      Frame.chunk (terminalChunk env model), Frame.done] := by
    rw [w4, w3, w2, w1, f2, f1]; simp [initialState]
  refine ⟨?_, ?_, ?_, ?_⟩
  · simp only [StreamMonicaSSEToClient, hsplit, hrun, hw]
  · simp only [StreamMonicaSSEToClient, hsplit, hrun]
  · rfl
  · rfl

/-- Witness of C1: the four sample payloads, decoded by `sampleUnmarshal`, from the empty
pool. -/
theorem stream_think_detail_text_finished_witness :
    (StreamMonicaSSEToClient sampleEnv [] "gpt-4o" Writer.healthy
        { data := dataLine payloadThinking ++ (dataLine payloadDetailA ++
            (dataLine payloadTextB ++ dataLine payloadFinished)),
          err := ReadErr.EOF }).written =
      [Frame.chunk (contentChunk sampleEnv "gpt-4o" "<think>"),
       Frame.chunk (contentChunk sampleEnv "gpt-4o" "A"),
       Frame.chunk (contentChunk sampleEnv "gpt-4o" ("</think>" ++ "B")),
       Frame.chunk (terminalChunk sampleEnv "gpt-4o"),
       Frame.done] ∧
    (StreamMonicaSSEToClient sampleEnv [] "gpt-4o" Writer.healthy
        { data := dataLine payloadThinking ++ (dataLine payloadDetailA ++
            (dataLine payloadTextB ++ dataLine payloadFinished)),
          err := ReadErr.EOF }).err = none ∧
    Frame.wire (fun _ => "") Frame.done = "data: [DONE]\n\n" ∧
    (terminalChunk sampleEnv "gpt-4o").Choices.map
      (fun c => (c.FinishReason, c.Delta.Content)) = [("stop", "")] :=
  stream_think_detail_text_finished sampleEnv [] "gpt-4o" "A" "B"
    payloadThinking payloadDetailA payloadTextB payloadFinished ReadErr.EOF (fun _ => "")
    (by decide) (by decide) (by decide) (by decide)
    (fun o ho => by simp at ho)
    (fun o ho => ⟨rfl, ho.1, rfl⟩)
    (fun o ho => ⟨rfl, ho.1, rfl, rfl⟩)
    (fun o ho => ⟨rfl, ho.1, ho.2, rfl⟩)
    (fun o _ => ⟨rfl, rfl⟩)

/-- Where every plain-text payload names its text field, so that it decodes to its text
`t` whatever the object decoded into held: for every finite sequence of such events
followed by one finished event, `StreamMonicaSSEToClient` on a destination that accepts
every write emits one non-terminal chunk per plain-text event, in input order, with
content `t`, then exactly one terminal chunk and exactly one sentinel, and returns
nil. -/
theorem stream_plain_texts (env : Env) (pool : List SSEData) (model : String)
    (evs : List (List Char × String)) (pf : List Char) (e : ReadErr)
    (hpool : CleanPool pool)
    (hn : ∀ pt ∈ evs, '\n' ∉ pt.1)
    (hevs : ∀ pt ∈ evs, DecodesTo env pt.1
      (fun o => o.Finished = false ∧ o.AgentStatus.Type_ = "" ∧ o.Text = pt.2))
    (hnf : '\n' ∉ pf) (hf : DecodesTo env pf (fun o => o.Finished = true)) :
    (StreamMonicaSSEToClient env pool model Writer.healthy
        { data := (evs.map (fun pt => dataLine pt.1)).flatten ++ dataLine pf,
          err := e }).written =
      evs.map (fun pt => Frame.chunk (contentChunk env model pt.2)) ++
        [Frame.chunk (terminalChunk env model), Frame.done] ∧
    (StreamMonicaSSEToClient env pool model Writer.healthy
        { data := (evs.map (fun pt => dataLine pt.1)).flatten ++ dataLine pf,
          err := e }).err = none ∧
    String.join ((evs.map (fun pt => Frame.chunk (contentChunk env model pt.2))).map
        Frame.content) = String.join (evs.map Prod.snd) ∧
    (∀ f ∈ evs.map (fun pt => Frame.chunk (contentChunk env model pt.2)),
        f.isTerminal = false ∧ f ≠ Frame.done) ∧
    (Frame.chunk (terminalChunk env model)).isTerminal = true := by
  have hsplit : (splitLines ((evs.map (fun pt => dataLine pt.1)).flatten ++ dataLine pf)).1 =
      evs.map (fun pt => dataLine pt.1) ++ [dataLine pf] := by
    have hl : ∀ l ∈ evs.map (fun pt => dataLine pt.1), IsLine l := by
      intro l hl
      obtain ⟨pt, hpt, rfl⟩ := List.mem_map.1 hl
      exact isLine_dataLine pt.1 (hn pt hpt)
    have h4s := splitLines_dataLine pf [] hnf
    rw [List.append_nil] at h4s
    rw [splitLines_lines _ _ hl, h4s]
    simp [splitLines]
  obtain ⟨s1, e1, f1, w1, q1⟩ := runLines_plain env model evs hevs
    (initialState pool) hpool rfl
  obtain ⟨s2, e2, _, w2⟩ := step_finished env model Writer.healthy s1 pf q1 rfl rfl hf
  have hrun : runLines env model Writer.healthy (initialState pool)
      (evs.map (fun pt => dataLine pt.1) ++ [dataLine pf]) = .ret s2 none := by
    rw [e1]; simp [runLines, e2]
  refine ⟨?_, ?_, ?_, ?_, ?_⟩
  · simp only [StreamMonicaSSEToClient, hsplit, hrun, w2, w1]
    simp [initialState]
  · simp only [StreamMonicaSSEToClient, hsplit, hrun]
  · simp [Frame.content, contentChunk, String.join, Function.comp_def]
  · intro f hf
    obtain ⟨pt, _, rfl⟩ := List.mem_map.1 hf
    exact ⟨by simp [Frame.isTerminal, contentChunk, FinishReasonStop],
      fun h => by cases h⟩
  · simp [Frame.isTerminal, terminalChunk, FinishReasonStop]

/-- Example for `stream_plain_texts`: two plain-text events that name their text and a
finished event, decoded by `sampleUnmarshal`, from the empty pool. -/
theorem stream_plain_texts_witness :
    (StreamMonicaSSEToClient sampleEnv [] "gpt-4o" Writer.healthy
        { data := ([(payloadTextHello, "Hello"), (payloadTextB, "B")].map
            (fun pt => dataLine pt.1)).flatten ++ dataLine payloadFinished,
          err := ReadErr.EOF }).written =
      [(payloadTextHello, "Hello"), (payloadTextB, "B")].map
          (fun pt => Frame.chunk (contentChunk sampleEnv "gpt-4o" pt.2)) ++
        [Frame.chunk (terminalChunk sampleEnv "gpt-4o"), Frame.done] ∧
    (StreamMonicaSSEToClient sampleEnv [] "gpt-4o" Writer.healthy
        { data := ([(payloadTextHello, "Hello"), (payloadTextB, "B")].map
            (fun pt => dataLine pt.1)).flatten ++ dataLine payloadFinished,
          err := ReadErr.EOF }).err = none ∧
    String.join (([(payloadTextHello, "Hello"), (payloadTextB, "B")].map
        (fun pt => Frame.chunk (contentChunk sampleEnv "gpt-4o" pt.2))).map Frame.content) =
      String.join ([(payloadTextHello, "Hello"), (payloadTextB, "B")].map Prod.snd) ∧
    (∀ f ∈ [(payloadTextHello, "Hello"), (payloadTextB, "B")].map
        (fun pt => Frame.chunk (contentChunk sampleEnv "gpt-4o" pt.2)),
        f.isTerminal = false ∧ f ≠ Frame.done) ∧
    (Frame.chunk (terminalChunk sampleEnv "gpt-4o")).isTerminal = true :=
  stream_plain_texts sampleEnv [] "gpt-4o" [(payloadTextHello, "Hello"), (payloadTextB, "B")]
    payloadFinished ReadErr.EOF
    (fun o ho => by simp at ho)
    (by decide)
    (by
      intro pt hpt o ho
      simp only [List.mem_cons, List.mem_singleton, List.not_mem_nil, or_false] at hpt
      rcases hpt with rfl | rfl
      · exact ⟨rfl, ho.1, ho.2, rfl⟩
      · exact ⟨rfl, ho.1, ho.2, rfl⟩)
    (by decide)
    (fun o _ => ⟨rfl, rfl⟩)

set_option maxRecDepth 100000 in
/-- C3, as stated, fails: on the four sample lines (thinking; thinking detail `A` without
top-level text; text `B`; finished) `HandleNonStreamingResponse` returns the content `B`,
not `AB`. -/
theorem nonstreaming_content_is_not_AB :
    (HandleNonStreamingResponse sampleEnv "gpt-4o"
        { data := dataLine payloadThinking ++ (dataLine payloadDetailA ++
            (dataLine payloadTextB ++ dataLine payloadFinished)),
          err := ReadErr.EOF }).1.map
        (fun resp => resp.Choices.map (fun c => c.Message.Content)) = some ["B"] ∧
    ¬ ((HandleNonStreamingResponse sampleEnv "gpt-4o"
        { data := dataLine payloadThinking ++ (dataLine payloadDetailA ++
            (dataLine payloadTextB ++ dataLine payloadFinished)),
          err := ReadErr.EOF }).1.map
        (fun resp => resp.Choices.map (fun c => c.Message.Content)) = some ["AB"]) := by
  have h : (HandleNonStreamingResponse sampleEnv "gpt-4o"
        { data := dataLine payloadThinking ++ (dataLine payloadDetailA ++
            (dataLine payloadTextB ++ dataLine payloadFinished)),
          err := ReadErr.EOF }).1.map
        (fun resp => resp.Choices.map (fun c => c.Message.Content)) = some ["B"] := by
    decide
  refine ⟨h, ?_⟩
  rw [h]
  decide

/-- C3, amended: for the four data lines that decode to a thinking event, a
thinking-detail event with reasoning detail `a` and no top-level text, a plain-text event
with text `b` and a finished event (the thinking and the finished event without top-level
text), `HandleNonStreamingResponse` returns no error and a response whose single choice
has message content exactly `b` (the reasoning detail is not part of it, and there are
no think tags) and finish reason stop. -/
theorem nonstreaming_think_detail_text_finished (env : Env) (model a b : String)
    (p1 p2 p3 p4 : List Char) (e : ReadErr)
    (hn1 : '\n' ∉ p1) (hn2 : '\n' ∉ p2) (hn3 : '\n' ∉ p3) (hn4 : '\n' ∉ p4)
    (h1 : DecodesFresh env p1
      (fun o => o.Finished = false ∧ o.AgentStatus.Type_ = "thinking" ∧ o.Text = ""))
    (h2 : DecodesFresh env p2
      (fun o => o.Finished = false ∧ o.AgentStatus.Type_ = "thinking_detail_stream" ∧
        o.AgentStatus.Metadata.ReasoningDetail = a ∧ o.Text = ""))
    (h3 : DecodesFresh env p3
      (fun o => o.Finished = false ∧ o.AgentStatus.Type_ = "" ∧ o.Text = b))
    (h4 : DecodesFresh env p4 (fun o => o.Finished = true ∧ o.Text = "")) :
    ∃ resp, HandleNonStreamingResponse env model
        { data := dataLine p1 ++ (dataLine p2 ++ (dataLine p3 ++ dataLine p4)),
          err := e } = (some resp, none) ∧
      resp.Choices = [{ Index := 0, Message := { Role := "assistant", Content := b },
                        FinishReason := "stop" }] := by
  have hsplit : (splitLines (dataLine p1 ++ (dataLine p2 ++ (dataLine p3 ++ dataLine p4)))).1
      = [dataLine p1, dataLine p2, dataLine p3, dataLine p4] := by
    have h4s := splitLines_dataLine p4 [] hn4
    rw [List.append_nil] at h4s
    rw [splitLines_dataLine p1 _ hn1, splitLines_dataLine p2 _ hn2,
      splitLines_dataLine p3 _ hn3, h4s]
    simp [splitLines]
  obtain ⟨k1, f1, _, t1⟩ := h1
  obtain ⟨k2, f2, _, _, t2⟩ := h2
  obtain ⟨k3, f3, _, t3⟩ := h3
  obtain ⟨k4, f4, t4⟩ := h4
  have hloop : aggregateLines env ""
      [dataLine p1, dataLine p2, dataLine p3, dataLine p4] = (b, true) := by
    simp only [aggregateLines, aggregateLine_dataLine env _ _ k1,
      aggregateLine_dataLine env _ _ k2, aggregateLine_dataLine env _ _ k3,
      aggregateLine_dataLine env _ _ k4, f1, f2, f3, f4, t1, t2, t3, t4]
    simp
  refine ⟨aggregatedResponse env b, ?_, rfl⟩
  simp only [HandleNonStreamingResponse, hsplit, hloop, aggregatedResponse]

/-- Witness of C3 (amended): the four sample payloads decoded by `sampleUnmarshal`. -/
theorem nonstreaming_think_detail_text_finished_witness :
    ∃ resp, HandleNonStreamingResponse sampleEnv "gpt-4o"
        { data := dataLine payloadThinking ++ (dataLine payloadDetailA ++
            (dataLine payloadTextB ++ dataLine payloadFinished)),
          err := ReadErr.EOF } = (some resp, none) ∧
      resp.Choices = [{ Index := 0, Message := { Role := "assistant", Content := "B" },
                        FinishReason := "stop" }] :=
  nonstreaming_think_detail_text_finished sampleEnv "gpt-4o" "A" "B"
    payloadThinking payloadDetailA payloadTextB payloadFinished ReadErr.EOF
    (by decide) (by decide) (by decide) (by decide)
    ⟨rfl, rfl, rfl, rfl⟩ ⟨rfl, rfl, rfl, rfl, rfl⟩ ⟨rfl, rfl, rfl, rfl⟩ ⟨rfl, rfl, rfl⟩

/-- C4: for every input stream that ends without a read error,
`HandleNonStreamingResponse` returns a response whose message content is the
concatenation, in input order, of the top-level text of every successfully decoded data
line up to and including the first finished one (of all decoded lines when none is
finished), whatever the agent status types and with nothing inserted; the lines after
the first finished event contribute nothing. -/
theorem nonstreaming_content (env : Env) (model : String) (r : Reader)
    (h : r.err = ReadErr.EOF) :
    HandleNonStreamingResponse env model r =
      (some (aggregatedResponse env (aggregatedContent env (splitLines r.data).1)), none) ∧
    (aggregatedResponse env (aggregatedContent env (splitLines r.data).1)).Choices.map
        (fun c => c.Message.Content) = [aggregatedContent env (splitLines r.data).1] ∧
    (∀ (pre post : List (List Char)) (l : List Char) (ev : SSEData),
      decodedEvent env l = some ev → ev.Finished = true →
      (∀ x ∈ pre.filterMap (decodedEvent env), x.Finished = false) →
      aggregatedContent env (pre ++ l :: post) =
        String.join ((pre.filterMap (decodedEvent env)).map (fun x => x.Text)) ++ ev.Text) := by
  refine ⟨?_, rfl, ?_⟩
  · obtain ⟨data, err⟩ := r
    simp only at h
    subst h
    rw [handleNonStreaming_eof, aggregateLines_content env _ (splitLines_isLine data)]
    simp
  · intro pre post l ev hd hf hpre
    simp only [aggregatedContent, List.filterMap_append, List.filterMap_cons, hd]
    rw [uptoFinished_append_finished _ _ ev hf hpre]
    apply String.ext
    simp [String.join_eq]

/-- Witness of C4: the four sample lines followed by a further text line. -/
theorem nonstreaming_content_witness :
    HandleNonStreamingResponse sampleEnv "gpt-4o"
        { data := dataLine payloadThinking ++ (dataLine payloadTextB ++
            (dataLine payloadFinished ++ dataLine payloadTextHello)),
          err := ReadErr.EOF } =
      (some (aggregatedResponse sampleEnv "B"), none) := by
  have h := (nonstreaming_content sampleEnv "gpt-4o"
    { data := dataLine payloadThinking ++ (dataLine payloadTextB ++
        (dataLine payloadFinished ++ dataLine payloadTextHello)),
      err := ReadErr.EOF } rfl).1
  rw [h]
  decide

/-- C5: a pass of the loop of `StreamMonicaSSEToClient` that decodes an event with
`Finished` set, whatever its text, its agent status type and the value of `thinkFlag`,
emits (on a destination that accepts the writes) the terminal chunk, with finish reason
stop, role assistant and empty content, then the sentinel, and returns nil: neither the
text nor the reasoning detail nor `</think>` is emitted, and `thinkFlag` is left as it
was, so that a think block open at that point stays unclosed. The switch itself maps every
finished object to the terminal chunk, for both values of `thinkFlag`. -/
theorem finished_takes_priority (env : Env) (model : String) (w : Writer) (s : LoopState)
    (line : List Char) (h : decodesFinished env s line = true)
    (hw : w s.calls = none) (hw1 : w (s.calls + 1) = none) :
    iteration env model w s line =
      .ret { thinkFlag := s.thinkFlag, pool := (poolGet s.pool).2,
             written := s.written ++ [Frame.chunk (terminalChunk env model), Frame.done],
             calls := s.calls + 2 } none ∧
    (terminalChunk env model).Choices =
      [{ Index := 0, Delta := { Role := "assistant", Content := "" },
         FinishReason := "stop" }] ∧
    (∀ (flag : Bool) (o : SSEData), o.Finished = true →
      buildMsg env model flag o = (terminalChunk env model, o, flag)) :=
  ⟨iteration_of_decodesFinished env model w s line h hw hw1, rfl,
    fun flag o ho => buildMsg_finished env model flag o ho⟩

/-- Witness of C5: a finished event that carries text, met while `thinkFlag` is set. -/
theorem finished_takes_priority_witness :
    iteration sampleEnv "gpt-4o" Writer.healthy
        { thinkFlag := true,
          pool := [{ SSEData.zero with Text := "stale" }],
          written := [Frame.chunk (contentChunk sampleEnv "gpt-4o" "<think>")],
          calls := 1 }
        (dataLine payloadFinished) =
      .ret { thinkFlag := true, pool := [],
             written := [Frame.chunk (contentChunk sampleEnv "gpt-4o" "<think>"),
               Frame.chunk (terminalChunk sampleEnv "gpt-4o"), Frame.done],
             calls := 3 } none :=
  (finished_takes_priority sampleEnv "gpt-4o" Writer.healthy
    { thinkFlag := true,
      pool := [{ SSEData.zero with Text := "stale" }],
      written := [Frame.chunk (contentChunk sampleEnv "gpt-4o" "<think>")],
      calls := 1 }
    (dataLine payloadFinished) (by decide) rfl rfl).1

/-- C6: the output of `StreamMonicaSSEToClient` contains at most one terminal chunk, for
every input and every destination. Whenever a finished event is decoded, on a destination
that accepts the writes, the output is a sequence of non-terminal chunks, then the
terminal chunk, then the sentinel, whose bytes are `data: [DONE]` and two newlines, and
nothing after it; nil is returned; and the bytes that follow the line of the finished
event, and the way the stream ends, have no effect on the result. -/
theorem terminal_chunk_once_and_last (env : Env) (pool : List SSEData) (model : String) :
    (∀ (w : Writer) (r : Reader),
      (StreamMonicaSSEToClient env pool model w r).written.countP Frame.isTerminal ≤ 1) ∧
    (∀ r : Reader,
      finishedDecoded env model Writer.healthy (initialState pool) (splitLines r.data).1
        = true →
      ∃ body, (StreamMonicaSSEToClient env pool model Writer.healthy r).written =
          body ++ [Frame.chunk (terminalChunk env model), Frame.done] ∧
        (∀ f ∈ body, NonTerminal f) ∧
        (Frame.chunk (terminalChunk env model)).isTerminal = true ∧
        (StreamMonicaSSEToClient env pool model Writer.healthy r).written.countP
          Frame.isTerminal = 1 ∧
        (StreamMonicaSSEToClient env pool model Writer.healthy r).err = none) ∧
    (∀ (lines : List (List Char)) (post : List Char) (e : ReadErr),
      (∀ l ∈ lines, IsLine l) →
      finishedDecoded env model Writer.healthy (initialState pool) lines = true →
      StreamMonicaSSEToClient env pool model Writer.healthy
          { data := lines.flatten ++ post, err := e } =
        StreamMonicaSSEToClient env pool model Writer.healthy
          { data := lines.flatten, err := ReadErr.EOF }) ∧
    (∀ marshal, Frame.wire marshal Frame.done = "data: [DONE]\n\n") := by
  have hT : (Frame.chunk (terminalChunk env model)).isTerminal = true := by
    simp [Frame.isTerminal, terminalChunk, FinishReasonStop]
  have hD : Frame.done.isTerminal = false := rfl
  refine ⟨?_, ?_, ?_, fun _ => rfl⟩
  · intro w r
    unfold StreamMonicaSSEToClient
    cases hr : runLines env model w (initialState pool) (splitLines r.data).1 with
    | next s1 =>
      obtain ⟨x, e1, n1⟩ := runLines_next_written env model w _ _ s1 hr
      have hc : s1.written.countP Frame.isTerminal = 0 := by
        rw [e1]; simp [initialState, countP_nonTerminal x n1]
      cases r.err <;> simp [hc]
    | ret s1 err =>
      obtain ⟨x, tail, e1, n1, ht⟩ := runLines_ret_written env model w _ _ s1 err hr
      simp only [e1, initialState, List.nil_append, List.countP_append,
        countP_nonTerminal x n1, Nat.zero_add]
      rcases ht with rfl | rfl | rfl
      · simp
      · simp [List.countP_cons, hT]
      · simp [List.countP_cons, hT, hD]
  · intro r h
    obtain ⟨s1, x, hr, e1, n1, _⟩ := runLines_of_finishedDecoded env model _ _ h
    refine ⟨x, ?_, n1, hT, ?_, ?_⟩
    · simp only [StreamMonicaSSEToClient, hr, e1]
      simp [initialState]
    · simp only [StreamMonicaSSEToClient, hr, e1]
      simp [initialState, List.countP_append, countP_nonTerminal x n1, List.countP_cons, hT,
        hD]
    · simp only [StreamMonicaSSEToClient, hr]
  · intro lines post e hl h
    obtain ⟨s1, x, hr, _, _, hm⟩ := runLines_of_finishedDecoded env model _ _ h
    have h1 := splitLines_lines lines post hl
    have h2 := splitLines_lines lines [] hl
    rw [List.append_nil] at h2
    simp only [StreamMonicaSSEToClient, h1, h2, hm, splitLines, List.append_nil, hr]

/-- Witness of C6: a text event and a finished event, followed by a further line and a
read error that are never reached. -/
theorem terminal_chunk_once_and_last_witness :
    StreamMonicaSSEToClient sampleEnv [] "gpt-4o" Writer.healthy
        { data := [dataLine payloadTextB, dataLine payloadFinished].flatten ++
            dataLine payloadTextHello,
          err := ReadErr.other "connection reset" } =
      StreamMonicaSSEToClient sampleEnv [] "gpt-4o" Writer.healthy
        { data := [dataLine payloadTextB, dataLine payloadFinished].flatten,
          err := ReadErr.EOF } :=
  (terminal_chunk_once_and_last sampleEnv [] "gpt-4o").2.2.1
    [dataLine payloadTextB, dataLine payloadFinished] (dataLine payloadTextHello)
    (ReadErr.other "connection reset")
    (by
      intro l hl
      simp only [List.mem_cons, List.mem_singleton, List.not_mem_nil, or_false] at hl
      rcases hl with rfl | rfl
      · exact isLine_dataLine _ (by decide)
      · exact isLine_dataLine _ (by decide))
    (by decide)

/-- C7: for every input stream that ends with end-of-file and in which no pass decodes a
finished event, `StreamMonicaSSEToClient` (on a destination that accepts the writes)
returns nil having written exactly the content chunks of the events it decoded, one per
event and in their order, each with the content the table of the frame builder gives for
the event and the think state before it; none of them is a terminal chunk and there is
no sentinel. `HandleNonStreamingResponse` returns a nil error and a non-nil response,
whose content is the aggregated text, as it does for every stream that ends with
end-of-file. -/
theorem eof_without_finished (env : Env) (pool : List SSEData) (model : String)
    (r : Reader) (h : r.err = ReadErr.EOF)
    (hno : finishedDecoded env model Writer.healthy (initialState pool)
      (splitLines r.data).1 = false) :
    (StreamMonicaSSEToClient env pool model Writer.healthy r).err = none ∧
    (StreamMonicaSSEToClient env pool model Writer.healthy r).written =
      (events env model Writer.healthy (initialState pool) (splitLines r.data).1).map
        (fun bo => Frame.chunk (contentChunk env model (eventContent bo.1 bo.2))) ∧
    (∀ f ∈ (StreamMonicaSSEToClient env pool model Writer.healthy r).written,
      NonTerminal f) ∧
    (StreamMonicaSSEToClient env pool model Writer.healthy r).written.countP
      Frame.isTerminal = 0 ∧
    Frame.done ∉ (StreamMonicaSSEToClient env pool model Writer.healthy r).written ∧
    HandleNonStreamingResponse env model r =
      (some (aggregatedResponse env (aggregatedContent env (splitLines r.data).1)), none) := by
  obtain ⟨s1, hr⟩ := runLines_of_not_finishedDecoded env model _ _ hno
  obtain ⟨x, e1, n1⟩ := runLines_next_written env model Writer.healthy _ _ s1 hr
  obtain ⟨e2, _⟩ := trace_next env model Writer.healthy _ _ s1 hr
  have hw : (StreamMonicaSSEToClient env pool model Writer.healthy r).written = x := by
    simp only [StreamMonicaSSEToClient, hr, h, e1]
    simp [initialState]
  have hev : (StreamMonicaSSEToClient env pool model Writer.healthy r).written =
      (events env model Writer.healthy (initialState pool) (splitLines r.data).1).map
        (fun bo => Frame.chunk (contentChunk env model (eventContent bo.1 bo.2))) := by
    simp only [StreamMonicaSSEToClient, hr, h, e2]
    rw [trace_frames_events]
    simp [initialState]
  have he : (StreamMonicaSSEToClient env pool model Writer.healthy r).err = none := by
    simp only [StreamMonicaSSEToClient, hr, h]
  refine ⟨he, hev, ?_, ?_, ?_, ?_⟩
  · rw [hw]; exact n1
  · rw [hw]; exact countP_nonTerminal x n1
  · rw [hw]; exact fun hd => (n1 _ hd).2 rfl
  · obtain ⟨data, err⟩ := r
    simp only at h
    subst h
    rw [handleNonStreaming_eof, aggregateLines_content env _ (splitLines_isLine data)]
    simp

set_option maxRecDepth 100000 in
/-- Witness of C7: a thinking event and a text event, then end-of-file: the chunks
`<think>` and `</think>B` are written, nil is returned, and the aggregated content is
`B`. -/
theorem eof_without_finished_witness :
    (StreamMonicaSSEToClient sampleEnv [] "gpt-4o" Writer.healthy
        { data := dataLine payloadThinking ++ dataLine payloadTextB,
          err := ReadErr.EOF }).err = none ∧
    (StreamMonicaSSEToClient sampleEnv [] "gpt-4o" Writer.healthy
        { data := dataLine payloadThinking ++ dataLine payloadTextB,
          err := ReadErr.EOF }).written =
      [Frame.chunk (contentChunk sampleEnv "gpt-4o" "<think>"),
       Frame.chunk (contentChunk sampleEnv "gpt-4o" "</think>B")] ∧
    Frame.done ∉ (StreamMonicaSSEToClient sampleEnv [] "gpt-4o" Writer.healthy
        { data := dataLine payloadThinking ++ dataLine payloadTextB,
          err := ReadErr.EOF }).written ∧
    HandleNonStreamingResponse sampleEnv "gpt-4o"
        { data := dataLine payloadThinking ++ dataLine payloadTextB,
          err := ReadErr.EOF } = (some (aggregatedResponse sampleEnv "B"), none) := by
  have h := eof_without_finished sampleEnv [] "gpt-4o"
    { data := dataLine payloadThinking ++ dataLine payloadTextB, err := ReadErr.EOF }
    rfl (by decide)
  refine ⟨h.1, ?_, h.2.2.2.2.1, ?_⟩
  · rw [h.2.1]; decide
  · rw [h.2.2.2.2.2]; decide

/-- C9: inserting into (or removing from) an input stream, between two lines, a
newline-terminated line that does not begin with `"data: "`, or the newline-terminated
line that consists of the prefix `"data: "` alone, changes neither the frames written by
`StreamMonicaSSEToClient`, nor its final `thinkFlag`, nor its error, nor the result of
`HandleNonStreamingResponse`, for every destination and every way the stream ends. For
the line with the empty remainder the payload handed to the decoder is the newline that
`ReadString` leaves on the line, which the decoder rejects without touching the object. -/
theorem dropped_lines_change_nothing (env : Env) (pool : List SSEData) (model : String)
    (w : Writer) (pre : List (List Char)) (line post : List Char) (e : ReadErr)
    (hpre : ∀ l ∈ pre, IsLine l) (hline : IsLine line)
    (hdrop : HasPrefix line dataPrefix = false ∨
      (line = dataLine [] ∧ ∀ o, env.unmarshal ['\n'] o = { obj := o, failed := true })) :
    (StreamMonicaSSEToClient env pool model w
        { data := pre.flatten ++ (line ++ post), err := e }).written =
      (StreamMonicaSSEToClient env pool model w
        { data := pre.flatten ++ post, err := e }).written ∧
    (StreamMonicaSSEToClient env pool model w
        { data := pre.flatten ++ (line ++ post), err := e }).thinkFlag =
      (StreamMonicaSSEToClient env pool model w
        { data := pre.flatten ++ post, err := e }).thinkFlag ∧
    (StreamMonicaSSEToClient env pool model w
        { data := pre.flatten ++ (line ++ post), err := e }).err =
      (StreamMonicaSSEToClient env pool model w
        { data := pre.flatten ++ post, err := e }).err ∧
    HandleNonStreamingResponse env model { data := pre.flatten ++ (line ++ post), err := e } =
      HandleNonStreamingResponse env model { data := pre.flatten ++ post, err := e } := by
  have hs1 : splitLines (pre.flatten ++ (line ++ post)) =
      (pre ++ line :: (splitLines post).1, (splitLines post).2) := by
    obtain ⟨body, hb, rfl⟩ := hline
    rw [splitLines_lines pre _ hpre, List.append_assoc, List.singleton_append,
      splitLines_line body post hb]
  have hs0 := splitLines_lines pre post hpre
  have hstep : ∀ t, ∃ t1, iteration env model w t line = .next t1 ∧ SameView t1 t := by
    intro t
    rcases hdrop with h | ⟨rfl, h⟩
    · exact ⟨t, iteration_no_prefix env model w t line h, sameView_refl t⟩
    · exact iteration_rejected env model w t [] (by simpa using h _)
  have hagg : ∀ c, aggregateLine env c line = (c, false) := by
    intro c
    rcases hdrop with h | ⟨rfl, h⟩
    · exact aggregateLine_no_prefix env c line h
    · exact aggregateLine_rejected env c [] (by simp [h])
  have hout := runLines_skip env model w pre (splitLines post).1 line (initialState pool) hstep
  have hst := stream_of_outcomeSame env pool model w (pre.flatten ++ (line ++ post))
    (pre.flatten ++ post) e (by rw [hs1, hs0]; exact hout)
  refine ⟨hst.1, hst.2.1, hst.2.2, ?_⟩
  simp only [HandleNonStreamingResponse, hs1, hs0, aggregateLines_skip env pre _ line hagg]

/-- Witness of C9: the line `data: ` with an empty remainder, inserted between a text
event and a finished event, from the empty pool. -/
theorem dropped_lines_change_nothing_witness :
    (StreamMonicaSSEToClient sampleEnv [] "gpt-4o" Writer.healthy
        { data := [dataLine payloadTextB].flatten ++ (dataLine [] ++ dataLine payloadFinished),
          err := ReadErr.EOF }).written =
      (StreamMonicaSSEToClient sampleEnv [] "gpt-4o" Writer.healthy
        { data := [dataLine payloadTextB].flatten ++ dataLine payloadFinished,
          err := ReadErr.EOF }).written :=
  (dropped_lines_change_nothing sampleEnv [] "gpt-4o" Writer.healthy
    [dataLine payloadTextB] (dataLine []) (dataLine payloadFinished) ReadErr.EOF
    (by
      intro l hl
      simp only [List.mem_singleton] at hl
      subst hl
      exact isLine_dataLine _ (by decide))
    (isLine_dataLine _ (by decide))
    (Or.inr ⟨rfl, fun _ => rfl⟩)).1

set_option maxRecDepth 100000 in
/-- C8, failing input: a data line whose payload is an object cut off before its closing
brace, followed by a text event. The decoder rejects the first payload after it has
assigned `Finished`; the loop puts the object back into the pool as it is; the next pass
gets the same object, decodes the text event into it and finds `Finished` set: the
session writes the terminal chunk and the sentinel and ends, and the text is lost.
Without the malformed line the session writes the chunk `B` and goes on. -/
theorem malformed_line_changes_output :
    (sampleEnv.unmarshal (payloadTruncated ++ ['\n']) SSEData.zero).failed = true ∧
    (StreamMonicaSSEToClient sampleEnv [] "gpt-4o" Writer.healthy
        { data := dataLine payloadTruncated ++ dataLine payloadTextB,
          err := ReadErr.EOF }).written =
      [Frame.chunk (terminalChunk sampleEnv "gpt-4o"), Frame.done] ∧
    (StreamMonicaSSEToClient sampleEnv [] "gpt-4o" Writer.healthy
        { data := dataLine payloadTextB, err := ReadErr.EOF }).written =
      [Frame.chunk (contentChunk sampleEnv "gpt-4o" "B")] := by
  decide

set_option maxRecDepth 100000 in
/-- C10, failing input: a text event and a finished event. The content chunk carries the
session's fingerprint, the terminal chunk carries an empty one; id, timestamp and model
agree. -/
theorem terminal_chunk_lacks_fingerprint :
    (StreamMonicaSSEToClient sampleEnv [] "gpt-4o" Writer.healthy
        { data := dataLine payloadTextB ++ dataLine payloadFinished,
          err := ReadErr.EOF }).written =
      [Frame.chunk (contentChunk sampleEnv "gpt-4o" "B"),
       Frame.chunk (terminalChunk sampleEnv "gpt-4o"), Frame.done] ∧
    (contentChunk sampleEnv "gpt-4o" "B").SystemFingerprint = "fp7Hc2" ∧
    (terminalChunk sampleEnv "gpt-4o").SystemFingerprint = "" ∧
    (terminalChunk sampleEnv "gpt-4o").ID = (contentChunk sampleEnv "gpt-4o" "B").ID ∧
    (terminalChunk sampleEnv "gpt-4o").Created =
      (contentChunk sampleEnv "gpt-4o" "B").Created ∧
    (terminalChunk sampleEnv "gpt-4o").Model = "gpt-4o" := by
  decide

set_option maxRecDepth 100000 in
/-- C11, failing input: a finished event on a destination that accepts the terminal chunk
and then fails. The error of the sentinel's `WriteString` is not looked at: the call
returns nil, with the terminal chunk accepted and the sentinel not. -/
theorem sentinel_write_failure_returns_nil :
    Writer.brokenAfterFirst 1 = some "broken pipe" ∧
    (StreamMonicaSSEToClient sampleEnv [] "gpt-4o" Writer.brokenAfterFirst
        { data := dataLine payloadFinished, err := ReadErr.EOF }).err = none ∧
    (StreamMonicaSSEToClient sampleEnv [] "gpt-4o" Writer.brokenAfterFirst
        { data := dataLine payloadFinished, err := ReadErr.EOF }).written =
      [Frame.chunk (terminalChunk sampleEnv "gpt-4o")] := by
  decide

/-- C12: for every input stream whose reader ends with an error other than end-of-file
and in which no finished event is decoded, `StreamMonicaSSEToClient` (on a destination
that accepts the writes) returns the read error that wraps the cause, having written only
non-terminal chunks, with no terminal chunk and no sentinel; and
`HandleNonStreamingResponse` returns a nil response together with the read error that
wraps the cause. -/
theorem read_error_propagates (env : Env) (pool : List SSEData) (model : String)
    (r : Reader) (cause : String) (h : r.err = ReadErr.other cause)
    (hno : finishedDecoded env model Writer.healthy (initialState pool)
      (splitLines r.data).1 = false)
    (hagg : ∀ ev ∈ (splitLines r.data).1.filterMap (decodedEvent env), ev.Finished = false) :
    (StreamMonicaSSEToClient env pool model Writer.healthy r).err =
      some (Error.readError cause) ∧
    (∀ f ∈ (StreamMonicaSSEToClient env pool model Writer.healthy r).written,
      NonTerminal f) ∧
    Frame.done ∉ (StreamMonicaSSEToClient env pool model Writer.healthy r).written ∧
    HandleNonStreamingResponse env model r = (none, some (Error.readError cause)) := by
  obtain ⟨s1, hr⟩ := runLines_of_not_finishedDecoded env model _ _ hno
  obtain ⟨x, e1, n1⟩ := runLines_next_written env model Writer.healthy _ _ s1 hr
  have hw : (StreamMonicaSSEToClient env pool model Writer.healthy r).written = x := by
    simp only [StreamMonicaSSEToClient, hr, h, e1]
    simp [initialState]
  refine ⟨?_, ?_, ?_, ?_⟩
  · simp only [StreamMonicaSSEToClient, hr, h]
  · rw [hw]; exact n1
  · rw [hw]; exact fun hd => (n1 _ hd).2 rfl
  · have hb := aggregateLines_not_finished env _ (splitLines_isLine r.data) hagg ""
    simp only [HandleNonStreamingResponse, hb, h]

/-- Witness of C12: a text event, then a read error. -/
theorem read_error_propagates_witness :
    (StreamMonicaSSEToClient sampleEnv [] "gpt-4o" Writer.healthy
        { data := dataLine payloadTextB, err := ReadErr.other "connection reset" }).err =
      some (Error.readError "connection reset") ∧
    HandleNonStreamingResponse sampleEnv "gpt-4o"
        { data := dataLine payloadTextB, err := ReadErr.other "connection reset" } =
      (none, some (Error.readError "connection reset")) :=
  have h := read_error_propagates sampleEnv [] "gpt-4o"
    { data := dataLine payloadTextB, err := ReadErr.other "connection reset" }
    "connection reset" rfl (by decide) (by decide)
  ⟨h.1, h.2.2.2⟩

set_option maxRecDepth 100000 in
/-- C14, failing input: a text event `B` followed by an event with another agent status
type and no top-level text. With the pool the second pass decodes into the object of the
first pass, whose `Text` was not reset, and writes `B` a second time; decoding into a
fresh object writes an empty content. An object left in the pool with the text of another
session is written out in the same way. -/
theorem pooling_changes_output :
    (StreamMonicaSSEToClient sampleEnv [] "gpt-4o" Writer.healthy
        { data := dataLine payloadTextB ++ dataLine payloadSearching,
          err := ReadErr.EOF }).written =
      [Frame.chunk (contentChunk sampleEnv "gpt-4o" "B"),
       Frame.chunk (contentChunk sampleEnv "gpt-4o" "B")] ∧
    writtenWithoutPool sampleEnv "gpt-4o" Writer.healthy
        { data := dataLine payloadTextB ++ dataLine payloadSearching,
          err := ReadErr.EOF } =
      [Frame.chunk (contentChunk sampleEnv "gpt-4o" "B"),
       Frame.chunk (contentChunk sampleEnv "gpt-4o" "")] ∧
    (StreamMonicaSSEToClient sampleEnv [{ SSEData.zero with Text := "other session" }]
        "gpt-4o" Writer.healthy
        { data := dataLine payloadSearching, err := ReadErr.EOF }).written =
      [Frame.chunk (contentChunk sampleEnv "gpt-4o" "other session")] := by
  decide

set_option maxRecDepth 100000 in
/-- C16, failing input: a thinking-detail event `A` and a text event `B`. The object that
the end of the loop body puts back has `Type` and `Finished` cleared and keeps the text
and the reasoning detail, so it is not the zero value. On the error path (the truncated
payload) the object is put back as the failed decode left it. -/
theorem pooled_object_not_reset :
    (StreamMonicaSSEToClient sampleEnv [] "gpt-4o" Writer.healthy
        { data := dataLine payloadDetailA ++ dataLine payloadTextB,
          err := ReadErr.EOF }).pool =
      [{ Text := "B", Finished := false,
         AgentStatus := { UID := "", Type_ := "", Text := "",
                          Metadata := { Title := "", ReasoningDetail := "A" } } }] ∧
    (StreamMonicaSSEToClient sampleEnv [] "gpt-4o" Writer.healthy
        { data := dataLine payloadDetailA ++ dataLine payloadTextB,
          err := ReadErr.EOF }).pool ≠ [SSEData.zero] ∧
    (StreamMonicaSSEToClient sampleEnv [] "gpt-4o" Writer.healthy
        { data := dataLine payloadTruncated, err := ReadErr.EOF }).pool =
      [{ SSEData.zero with Finished := true }] := by
  decide

/-- C18: for every input stream whose last line is not terminated by a newline, both
drivers discard that line: the result of `StreamMonicaSSEToClient` and the result of
`HandleNonStreamingResponse` equal those for the input without the unterminated rest,
whatever the rest is, for every destination and every way the stream ends. -/
theorem unterminated_last_line_discarded (env : Env) (pool : List SSEData) (model : String)
    (w : Writer) (lines : List (List Char)) (frag : List Char) (e : ReadErr)
    (hl : ∀ l ∈ lines, IsLine l) (hf : '\n' ∉ frag) :
    StreamMonicaSSEToClient env pool model w { data := lines.flatten ++ frag, err := e } =
      StreamMonicaSSEToClient env pool model w { data := lines.flatten, err := e } ∧
    HandleNonStreamingResponse env model { data := lines.flatten ++ frag, err := e } =
      HandleNonStreamingResponse env model { data := lines.flatten, err := e } := by
  have h1 : (splitLines (lines.flatten ++ frag)).1 = lines := by
    rw [splitLines_lines lines frag hl, splitLines_fragment frag hf]; simp
  have h2 : (splitLines lines.flatten).1 = lines := by
    have := splitLines_lines lines [] hl
    rw [List.append_nil] at this
    rw [this]; simp [splitLines]
  exact ⟨by simp only [StreamMonicaSSEToClient, h1, h2],
    by simp only [HandleNonStreamingResponse, h1, h2]⟩

set_option maxRecDepth 100000 in
/-- Witness of C18: a text event followed by an unterminated, well-formed finished
event: only the chunk `B` is written, no terminal chunk and no sentinel. -/
theorem unterminated_last_line_discarded_witness :
    (StreamMonicaSSEToClient sampleEnv [] "gpt-4o" Writer.healthy
        { data := [dataLine payloadTextB].flatten ++ (dataPrefix ++ payloadFinished),
          err := ReadErr.EOF }).written =
      [Frame.chunk (contentChunk sampleEnv "gpt-4o" "B")] := by
  rw [(unterminated_last_line_discarded sampleEnv [] "gpt-4o" Writer.healthy
    [dataLine payloadTextB] (dataPrefix ++ payloadFinished) ReadErr.EOF
    (by
      intro l hl
      simp only [List.mem_singleton] at hl
      subst hl
      exact isLine_dataLine _ (by decide))
    (by decide)).1]
  decide

/-- C19: the result of `HandleNonStreamingResponse` does not depend on its model
argument; for two calls with different random ids and timestamps the errors agree and the
responses agree in every other field; and the `Model` and `SystemFingerprint` of a
response are the constant `hello`. -/
theorem nonstreaming_ignores_model (env : Env) (m1 m2 : String) (r : Reader)
    (chatId : String) (now : Int) (fingerprint : String) :
    HandleNonStreamingResponse env m1 r = HandleNonStreamingResponse env m2 r ∧
    (HandleNonStreamingResponse env m1 r).2 =
      (HandleNonStreamingResponse
        { env with chatId := chatId, now := now, fingerprint := fingerprint } m2 r).2 ∧
    (HandleNonStreamingResponse env m1 r).1.map
        (fun resp => (resp.Object, resp.Model, resp.SystemFingerprint, resp.Choices,
          resp.Usage)) =
      (HandleNonStreamingResponse
        { env with chatId := chatId, now := now, fingerprint := fingerprint } m2 r).1.map
        (fun resp => (resp.Object, resp.Model, resp.SystemFingerprint, resp.Choices,
          resp.Usage)) ∧
    (HandleNonStreamingResponse env m1 r).1.map
        (fun resp => (resp.Model, resp.SystemFingerprint)) =
      (HandleNonStreamingResponse env m1 r).1.map (fun _ => ("hello", "hello")) := by
  refine ⟨rfl, ?_, ?_, ?_⟩
  · simp only [HandleNonStreamingResponse, aggregateLines_env]
    split <;> rfl
  · simp only [HandleNonStreamingResponse, aggregateLines_env]
    split <;> rfl
  · simp only [HandleNonStreamingResponse]
    split <;> rfl

/-- A pass of the loop of `StreamMonicaSSEToClient` that decodes a non-finished event
whose agent status type is neither `thinking` nor `thinking_detail_stream` takes the
default case: it emits (on a destination that accepts the write) one chunk whose content
is the `Text` of the object after the decode, with `</think>` in front when `thinkFlag`
was set, and leaves `thinkFlag` unset. That `Text` is the text of the event only when the
payload names the field. -/
theorem other_status_is_plain_text (env : Env) (model : String) (w : Writer)
    (s : LoopState) (payload : List Char)
    (hok : (env.unmarshal (payload ++ ['\n']) (poolGet s.pool).1).failed = false)
    (hfin : (env.unmarshal (payload ++ ['\n']) (poolGet s.pool).1).obj.Finished = false)
    (ht : (env.unmarshal (payload ++ ['\n']) (poolGet s.pool).1).obj.AgentStatus.Type_ ≠
      "thinking")
    (hd : (env.unmarshal (payload ++ ['\n']) (poolGet s.pool).1).obj.AgentStatus.Type_ ≠
      "thinking_detail_stream")
    (hw : w s.calls = none) :
    ∃ s1, iteration env model w s (dataLine payload) = .next s1 ∧
      s1.thinkFlag = false ∧
      s1.written = s.written ++ [Frame.chunk (contentChunk env model
        (if s.thinkFlag then
          "</think>" ++ (env.unmarshal (payload ++ ['\n']) (poolGet s.pool).1).obj.Text
        else (env.unmarshal (payload ++ ['\n']) (poolGet s.pool).1).obj.Text))] := by
  refine ⟨_, iteration_decoded env model w s payload hok hfin hw, ?_, ?_⟩
  · simp [buildMsg_plain env model s.thinkFlag _ hfin ht hd]
  · simp [buildMsg_plain env model s.thinkFlag _ hfin ht hd]

set_option maxRecDepth 100000 in
/-- Example for `other_status_is_plain_text`: an event of type `searching` that names
its text `C`, met while `thinkFlag` is set. -/
theorem other_status_is_plain_text_witness :
    ∃ s1, iteration sampleEnv "gpt-4o" Writer.healthy
        { thinkFlag := true, pool := [], written := [], calls := 0 }
        (dataLine payloadSearchingText) = .next s1 ∧
      s1.thinkFlag = false ∧
      s1.written = [] ++ [Frame.chunk (contentChunk sampleEnv "gpt-4o"
        (if true then "</think>" ++ "C" else "C"))] :=
  other_status_is_plain_text sampleEnv "gpt-4o" Writer.healthy
    { thinkFlag := true, pool := [], written := [], calls := 0 } payloadSearchingText
    (by decide) (by decide) (by decide) (by decide) rfl

/-- Where every plain-text payload names its text field: in `StreamMonicaSSEToClient`
(on a destination that accepts the writes), for every event sequence made of a thinking
event, any number of thinking and thinking-detail events, and then plain-text events, met
in any state of the loop: after the events of the thinking phase `thinkFlag` is set; the
first plain-text event is emitted as `</think>` followed by its text and clears
`thinkFlag`; every later plain-text event is emitted with its text verbatim; and a
thinking-detail event leaves `thinkFlag` as it was. -/
theorem think_block_closed_once (env : Env) (model : String) (s : LoopState)
    (p0 : List Char) (mids : List (List Char × ThinkEvent))
    (p1 : List Char) (t1 : String) (plains : List (List Char × String))
    (hp : CleanPool s.pool)
    (h0 : DecodesThink env p0 ThinkEvent.thinking)
    (hmids : ∀ pe ∈ mids, DecodesThink env pe.1 pe.2)
    (h1 : DecodesTo env p1
      (fun o => o.Finished = false ∧ o.AgentStatus.Type_ = "" ∧ o.Text = t1))
    (hplains : ∀ pt ∈ plains, DecodesTo env pt.1
      (fun o => o.Finished = false ∧ o.AgentStatus.Type_ = "" ∧ o.Text = pt.2)) :
    (∃ s0, runLines env model Writer.healthy s
        (dataLine p0 :: mids.map (fun pe => dataLine pe.1)) = .next s0 ∧
      s0.thinkFlag = true) ∧
    (∃ s1, runLines env model Writer.healthy s
        (dataLine p0 :: mids.map (fun pe => dataLine pe.1) ++
          dataLine p1 :: plains.map (fun pt => dataLine pt.1)) = .next s1 ∧
      s1.thinkFlag = false ∧
      s1.written = s.written ++
        (Frame.chunk (contentChunk env model "<think>") ::
          mids.map (fun pe => Frame.chunk (contentChunk env model pe.2.content))) ++
        (Frame.chunk (contentChunk env model ("</think>" ++ t1)) ::
          plains.map (fun pt => Frame.chunk (contentChunk env model pt.2)))) ∧
    (∀ (t : LoopState) (p : List Char) (a : String), CleanPool t.pool →
      DecodesThink env p (ThinkEvent.detail a) →
      ∃ t1, iteration env model Writer.healthy t (dataLine p) = .next t1 ∧
        t1.thinkFlag = t.thinkFlag) := by
  obtain ⟨sa, ea, fa, wa, _, qa⟩ := step_thinking env model Writer.healthy s p0 hp rfl h0
  obtain ⟨sb, eb, fb, wb, qb⟩ := runLines_think env model mids hmids sa qa fa
  obtain ⟨sc, ec, fc, wc, _, qc⟩ := step_plain env model Writer.healthy sb p1 t1 qb rfl h1
  obtain ⟨sd, ed, fd, wd, _⟩ := runLines_plain env model plains hplains sc qc fc
  refine ⟨⟨sb, ?_, fb⟩, ⟨sd, ?_, fd, ?_⟩, ?_⟩
  · have := eb []
    simp only [List.append_nil] at this
    simp only [runLines, ea, this]
  · have h2 := ed []
    simp only [List.append_nil] at h2
    simp only [List.cons_append, runLines, ea]
    refine (eb _).trans ?_
    simp only [runLines, ec, h2]
  · rw [wd, wc, wb, wa, fb]; simp
  · intro t p a ht hd
    obtain ⟨t1, e1, f1, _⟩ := step_detail env model Writer.healthy t p a ht rfl hd
    exact ⟨t1, e1, f1⟩

/-- Example for `think_block_closed_once`: thinking, detail `A`, text `B`, text `Hello`,
from the initial state with an empty pool. -/
theorem think_block_closed_once_witness :
    ∃ s1, runLines sampleEnv "gpt-4o" Writer.healthy (initialState [])
        (dataLine payloadThinking ::
          [(payloadDetailA, ThinkEvent.detail "A")].map (fun pe => dataLine pe.1) ++
          dataLine payloadTextB ::
            [(payloadTextHello, "Hello")].map (fun pt => dataLine pt.1)) = .next s1 ∧
      s1.thinkFlag = false ∧
      s1.written = (initialState []).written ++
        (Frame.chunk (contentChunk sampleEnv "gpt-4o" "<think>") ::
          [(payloadDetailA, ThinkEvent.detail "A")].map
            (fun pe => Frame.chunk (contentChunk sampleEnv "gpt-4o" pe.2.content))) ++
        (Frame.chunk (contentChunk sampleEnv "gpt-4o" ("</think>" ++ "B")) ::
          [(payloadTextHello, "Hello")].map
            (fun pt => Frame.chunk (contentChunk sampleEnv "gpt-4o" pt.2))) :=
  (think_block_closed_once sampleEnv "gpt-4o" (initialState []) payloadThinking
    [(payloadDetailA, ThinkEvent.detail "A")] payloadTextB "B" [(payloadTextHello, "Hello")]
    (fun o ho => by simp [initialState] at ho)
    (fun o ho => ⟨rfl, ho.1, rfl⟩)
    (by
      intro pe hpe
      simp only [List.mem_singleton] at hpe
      subst hpe
      exact fun o ho => ⟨rfl, ho.1, rfl, rfl⟩)
    (fun o ho => ⟨rfl, ho.1, ho.2, rfl⟩)
    (by
      intro pt hpt
      simp only [List.mem_singleton] at hpt
      subst hpt
      exact fun o ho => ⟨rfl, ho.1, ho.2, rfl⟩)).2.1

/-- The passes of the switch, counted by the case taken: for every input stream, every
destination and every prefix of the content chunks that `StreamMonicaSSEToClient` writes,
the passes that executed the insertion of `</think>` are at most the passes of thinking
events. On a destination that accepts the writes, the final `thinkFlag` is set exactly
when a thinking event has been processed since the last plain-text event (or since the
start). This counts passes, not the text of the chunks: a chunk of a later pass can carry
the `</think>` that an earlier pass wrote into the pooled object. -/
theorem think_tags_balanced (env : Env) (pool : List SSEData) (model : String)
    (r : Reader) :
    (∀ w : Writer,
      (∃ tail, (StreamMonicaSSEToClient env pool model w r).written =
          (trace env model w (initialState pool) (splitLines r.data).1).map Prod.snd ++ tail ∧
        (tail = [] ∨ tail = [Frame.chunk (terminalChunk env model)] ∨
          tail = [Frame.chunk (terminalChunk env model), Frame.done])) ∧
      (∀ n,
        (((trace env model w (initialState pool) (splitLines r.data).1).take n).map
            Prod.fst).count Mark.closed ≤
          (((trace env model w (initialState pool) (splitLines r.data).1).take n).map
            Prod.fst).count Mark.opened) ∧
      (∀ n,
        (((trace env model w (initialState pool) (splitLines r.data).1).take n).map
            Prod.fst).count Mark.closed ≤
          (((trace env model w (initialState pool) (splitLines r.data).1).take n).map
            Prod.snd).count (Frame.chunk (contentChunk env model "<think>"))) ∧
      (∀ mf ∈ trace env model w (initialState pool) (splitLines r.data).1,
        (mf.1 = Mark.opened → mf.2 = Frame.chunk (contentChunk env model "<think>")) ∧
        (mf.1 = Mark.closed →
          ∃ t, mf.2 = Frame.chunk (contentChunk env model ("</think>" ++ t))))) ∧
    ((StreamMonicaSSEToClient env pool model Writer.healthy r).thinkFlag = true ↔
      ThinkingOpen
        ((trace env model Writer.healthy (initialState pool) (splitLines r.data).1).map
          Prod.fst)) := by
  refine ⟨fun w => ⟨?_, ?_, ?_, trace_marks env model w _ _⟩, ?_⟩
  · simp only [StreamMonicaSSEToClient]
    cases hr : runLines env model w (initialState pool) (splitLines r.data).1 with
    | next s1 =>
      obtain ⟨e1, _⟩ := trace_next env model w _ _ s1 hr
      refine ⟨[], ?_, Or.inl rfl⟩
      cases r.err <;> simp [e1, initialState]
    | ret s1 err =>
      obtain ⟨tail, e1, ht⟩ := trace_ret env model w _ _ s1 err hr
      exact ⟨tail, by simp [e1, initialState], ht⟩
  · intro n
    have hb := trace_balanced env model w (splitLines r.data).1 (initialState pool)
    have := balanced_count _ _ n hb
    rw [List.map_take]
    simpa [initialState] using this
  · intro n
    have hb := trace_balanced env model w (splitLines r.data).1 (initialState pool)
    have h1 := balanced_count _ _ n hb
    have h2 := count_opened_le env model
      ((trace env model w (initialState pool) (splitLines r.data).1).take n)
      (fun mf hmf => (trace_marks env model w _ _ mf (List.mem_of_mem_take hmf)).1)
    rw [List.map_take]
    rw [List.map_take] at h2
    simp only [initialState, Bool.false_eq_true, if_false, Nat.add_zero] at h1
    simp only [initialState] at h2 ⊢
    omega
  · have hf : (StreamMonicaSSEToClient env pool model Writer.healthy r).thinkFlag =
        ((trace env model Writer.healthy (initialState pool) (splitLines r.data).1).map
          Prod.fst).foldl flagStep false := by
      simp only [StreamMonicaSSEToClient]
      cases hr : runLines env model Writer.healthy (initialState pool)
          (splitLines r.data).1 with
      | next s1 =>
        obtain ⟨_, f1⟩ := trace_next env model Writer.healthy _ _ s1 hr
        cases r.err <;> simpa [initialState] using f1
      | ret s1 err =>
        have f1 := trace_ret_flag env model _ _ s1 err hr
        simpa [initialState] using f1
    rw [hf, foldl_flagStep]
    simp

set_option maxRecDepth 100000 in
/-- Example for `think_tags_balanced`: thinking, detail `A`, text `B`, text `Hello`: four
content chunks with the marks opened, detail, closed, plain, and `thinkFlag` unset at the
end. -/
theorem think_tags_balanced_witness :
    (trace sampleEnv "gpt-4o" Writer.healthy (initialState [])
        (splitLines (dataLine payloadThinking ++ (dataLine payloadDetailA ++
          (dataLine payloadTextB ++ dataLine payloadTextHello)))).1).map Prod.fst =
      [Mark.opened, Mark.detail, Mark.closed, Mark.plain] ∧
    ¬ ThinkingOpen
        ((trace sampleEnv "gpt-4o" Writer.healthy (initialState [])
          (splitLines (dataLine payloadThinking ++ (dataLine payloadDetailA ++
            (dataLine payloadTextB ++ dataLine payloadTextHello)))).1).map Prod.fst) := by
  refine ⟨by decide, ?_⟩
  rw [← (think_tags_balanced sampleEnv [] "gpt-4o"
    { data := dataLine payloadThinking ++ (dataLine payloadDetailA ++
        (dataLine payloadTextB ++ dataLine payloadTextHello)),
      err := ReadErr.EOF }).2]
  decide

set_option maxRecDepth 100000 in
/-- C2, failing input: the plain-text events `B` and the empty object (no agent status
type, not finished, no text), then a finished event. The texts of the three events are
`B` and twice the empty text; the second pass decodes into the object of the first pass,
whose `Text` was not reset, and writes `B` again: the contents of the chunks concatenate
to `BB`, not to `B`. -/
theorem plain_text_without_text_repeats :
    ((splitLines (dataLine payloadTextB ++ (dataLine payloadEmpty ++
        dataLine payloadFinished))).1.filterMap (decodedEvent sampleEnv)).map
        (fun ev => (ev.Text, ev.AgentStatus.Type_, ev.Finished)) =
      [("B", "", false), ("", "", false), ("", "", true)] ∧
    (StreamMonicaSSEToClient sampleEnv [] "gpt-4o" Writer.healthy
        { data := dataLine payloadTextB ++ (dataLine payloadEmpty ++
            dataLine payloadFinished),
          err := ReadErr.EOF }).written =
      [Frame.chunk (contentChunk sampleEnv "gpt-4o" "B"),
       Frame.chunk (contentChunk sampleEnv "gpt-4o" "B"),
       Frame.chunk (terminalChunk sampleEnv "gpt-4o"), Frame.done] ∧
    ((StreamMonicaSSEToClient sampleEnv [] "gpt-4o" Writer.healthy
        { data := dataLine payloadTextB ++ (dataLine payloadEmpty ++
            dataLine payloadFinished),
          err := ReadErr.EOF }).written.map Frame.content) = ["B", "B", "", ""] := by
  decide

set_option maxRecDepth 100000 in
/-- C13, failing input: a thinking event, the plain-text event `B` and the plain-text
event with no text. The first plain-text event is written as `</think>B` and the pooled
object keeps that text; the later plain-text event, whose own text is empty, is written
as `</think>B` too, not verbatim: two chunks carry the prefix. -/
theorem close_tag_repeated_for_later_text :
    ((splitLines (dataLine payloadThinking ++ (dataLine payloadTextB ++
        dataLine payloadEmpty))).1.filterMap (decodedEvent sampleEnv)).map
        (fun ev => (ev.Text, ev.AgentStatus.Type_, ev.Finished)) =
      [("", "thinking", false), ("B", "", false), ("", "", false)] ∧
    (StreamMonicaSSEToClient sampleEnv [] "gpt-4o" Writer.healthy
        { data := dataLine payloadThinking ++ (dataLine payloadTextB ++
            dataLine payloadEmpty),
          err := ReadErr.EOF }).written =
      [Frame.chunk (contentChunk sampleEnv "gpt-4o" "<think>"),
       Frame.chunk (contentChunk sampleEnv "gpt-4o" "</think>B"),
       Frame.chunk (contentChunk sampleEnv "gpt-4o" "</think>B")] := by
  decide

set_option maxRecDepth 100000 in
/-- C17, failing input: a thinking event, the text event `B` and an event of another agent
status type with no text. One chunk `<think>` is written and two chunks carry the
`</think>` that the translator inserted: the second one repeats the text that the first
insertion left in the pooled object. -/
theorem close_tags_exceed_open_tags :
    (StreamMonicaSSEToClient sampleEnv [] "gpt-4o" Writer.healthy
        { data := dataLine payloadThinking ++ (dataLine payloadTextB ++
            dataLine payloadSearching),
          err := ReadErr.EOF }).written =
      [Frame.chunk (contentChunk sampleEnv "gpt-4o" "<think>"),
       Frame.chunk (contentChunk sampleEnv "gpt-4o" "</think>B"),
       Frame.chunk (contentChunk sampleEnv "gpt-4o" "</think>B")] ∧
    (StreamMonicaSSEToClient sampleEnv [] "gpt-4o" Writer.healthy
        { data := dataLine payloadThinking ++ (dataLine payloadTextB ++
            dataLine payloadSearching),
          err := ReadErr.EOF }).written.count
        (Frame.chunk (contentChunk sampleEnv "gpt-4o" "<think>")) = 1 ∧
    (StreamMonicaSSEToClient sampleEnv [] "gpt-4o" Writer.healthy
        { data := dataLine payloadThinking ++ (dataLine payloadTextB ++
            dataLine payloadSearching),
          err := ReadErr.EOF }).written.count
        (Frame.chunk (contentChunk sampleEnv "gpt-4o" "</think>B")) = 2 := by
  decide

set_option maxRecDepth 100000 in
/-- C20, failing input: the text event `Hello` followed by an event of agent status type
`searching` with no top-level text. The top-level text of the second event is empty; its
chunk carries `Hello`, the text that the first event left in the pooled object. -/
theorem other_status_emits_stale_text :
    ((splitLines (dataLine payloadTextHello ++ dataLine payloadSearching)).1.filterMap
        (decodedEvent sampleEnv)).map
        (fun ev => (ev.Text, ev.AgentStatus.Type_, ev.Finished)) =
      [("Hello", "", false), ("", "searching", false)] ∧
    (StreamMonicaSSEToClient sampleEnv [] "gpt-4o" Writer.healthy
        { data := dataLine payloadTextHello ++ dataLine payloadSearching,
          err := ReadErr.EOF }).written =
      [Frame.chunk (contentChunk sampleEnv "gpt-4o" "Hello"),
       Frame.chunk (contentChunk sampleEnv "gpt-4o" "Hello")] := by
  decide

end Monica
